import Mathlib

/-!
# A verification model of the py-kis client library

This file gives a shallow embedding, in Lean, of the algorithmic core of the
`pykis` Python package: the error taxonomy (`pykis/exceptions.py`), the
transport response handling (`pykis/utils/http.py`), the historical range
aggregator (`pykis/api/quote.py`), the asynchronous authentication manager
(`pykis/auth/async_manager.py`), and the streaming-frame decoder
(`pykis/websocket/client.py`, `pykis/models/ticker.py`).

Modelling conventions:

* Calendar dates are represented by integers (one unit per day).  The Python
  code normalizes dates to 8-digit `YYYYMMDD` strings whose lexicographic
  order coincides with calendar order, and walks windows with
  `timedelta(days=...)` arithmetic; both are abstracted by `Int` with the
  usual order and arithmetic.  Only well-formed date strings are modelled.
* A `datetime` value is a pair `(day, time-of-day)` ordered lexicographically,
  matching the order of Python `datetime` objects on well-formed inputs.
* Vendor-formatted numeric strings that the code converts with `float(...)` /
  `int(...)` and never re-serializes are abstracted to their numeric values
  (`ℚ` / `Int`).  Streaming frames, whose splitting and numeric parsing the
  code performs explicitly, are modelled as genuine strings.
* The network is a pure parameter (`vendor` functions from request data to
  responses); Python exceptions become `Except` / `Option` results; mutation
  of `self` becomes explicit state passing.
* `time.sleep` rate-limit delays and logging are not modelled (no observable
  effect on returned data).
-/

/-- The exception taxonomy of `pykis/exceptions.py`.  Each constructor models
one concrete exception class; `message` and `code` model the constructor
arguments of `KISError.__init__`.  `validationError` models the pydantic
`ValidationError` raised when a model is constructed with a required field
missing (not a `KISError` subclass). -/
inductive PyError where
  | authenticationError (message : String) (code : Option String)
  | tokenExpiredError (message : String) (code : Option String)
  | apiError (message : String) (code : Option String)
  | rateLimitError (message : String) (code : Option String)
  | orderError (message : String) (code : Option String)
  | insufficientBalanceError (message : String) (code : Option String)
  | marketClosedError (message : String) (code : Option String)
  | validationError (message : String)
  deriving Repr, DecidableEq

/-- Model of `raise_for_code` in `pykis/exceptions.py`: the `ERROR_MAP`
lookup from vendor result codes to exception classes, with `APIError` as the
fallback.  The returned value is the exception the Python function raises. -/
def raise_for_code (code : String) (message : String) : PyError :=
  if code = "EGW00001" then .authenticationError message (some code)
  else if code = "EGW00002" then .tokenExpiredError message (some code)
  else if code = "OPSP0001" then .insufficientBalanceError message (some code)
  else if code = "OPSP0010" then .marketClosedError message (some code)
  else .apiError message (some code)

/-- A vendor REST response as seen by `HTTPClient._handle_response`
(`pykis/utils/http.py`): the HTTP status code, the KIS result fields
`rt_cd` / `msg_cd` / `msg1` (with the `data.get` defaults already applied),
and the `output2` item list (`data.get("output2", [])`).  The payload item
type `α` varies with the endpoint.  Only responses whose body is parseable
JSON are modelled (an unparseable body raises a generic `APIError` before any
field is read). -/
structure KISResponse (α : Type) where
  status_code : Nat
  rt_cd : String
  msg_cd : String
  msg1 : String
  output2 : List α
  deriving Repr, DecidableEq

/-- Model of `HTTPClient._handle_response`: HTTP 429 raises `RateLimitError`;
a result code `rt_cd ≠ "0"` raises the exception chosen by `raise_for_code`;
otherwise the parsed response is returned. -/
def handle_response {α : Type} (resp : KISResponse α) : Except PyError (KISResponse α) :=
  if resp.status_code = 429 then
    .error (.rateLimitError "Rate limit exceeded (초당 20건 초과)" none)
  else if resp.rt_cd ≠ "0" then
    .error (raise_for_code resp.msg_cd resp.msg1)
  else
    .ok resp

/-- A calendar instant `(day, time-of-day)`, ordered lexicographically; this
is the order Python `datetime` objects carry. -/
abbrev DT := Int × Nat

/-- Boolean `≤` on instants (lexicographic). -/
def dtLe (a b : DT) : Bool := a.1 < b.1 || (a.1 = b.1 && a.2 ≤ b.2)

/-- Strict `<` on instants (lexicographic). -/
def dtLt (a b : DT) : Prop := a.1 < b.1 ∨ (a.1 = b.1 ∧ a.2 < b.2)

instance (a b : DT) : Decidable (dtLt a b) := by unfold dtLt; infer_instance

/-- Abstract millisecond timestamp of an instant, modelling
`int(dt.timestamp() * 1000)`. -/
def tsOfDT (d : DT) : Int := d.1 * 86400000 + d.2

/-- The `OHLCV` pydantic model (`pykis/models/ohlcv.py`).  `open` is a Lean
keyword, hence the field name `open_`. -/
structure OHLCV where
  timestamp : Int
  datetime : DT
  open_ : ℚ
  high : ℚ
  low : ℚ
  close : ℚ
  volume : Int
  deriving Repr, DecidableEq

/-- One candle item of the daily-chart endpoint's `output2` list, restricted
to the fields `OHLCV.from_kis` and `fetch_ohlcv_range` read.
`stck_bsop_date = none` models an absent or empty date string; the numeric
string fields are abstracted to their values. -/
structure RawDailyItem where
  stck_bsop_date : Option Int
  stck_oprc : ℚ
  stck_hgpr : ℚ
  stck_lwpr : ℚ
  stck_clpr : ℚ
  acml_vol : Int
  deriving Repr, DecidableEq

/-- Model of `OHLCV.from_kis` (`pykis/models/ohlcv.py`): the candle datetime
is parsed from `stck_bsop_date` (midnight of that day), falling back to
`datetime.now()` (the `now` parameter) when the date is absent. -/
def OHLCV.from_kis (now : DT) (item : RawDailyItem) : OHLCV :=
  let dt : DT :=
    match item.stck_bsop_date with
    | some d => (d, 0)
    | none => now
  { timestamp := tsOfDT dt
    datetime := dt
    open_ := item.stck_oprc
    high := item.stck_hgpr
    low := item.stck_lwpr
    close := item.stck_clpr
    volume := item.acml_vol }

/-- Keyed insertion with Python `dict` semantics (`all_data[key] = value`):
an existing binding of the key is overwritten in place, otherwise the new
binding is appended at the end. -/
def dictInsert {κ ν : Type} [DecidableEq κ] (k : κ) (v : ν) :
    List (κ × ν) → List (κ × ν)
  | [] => [(k, v)]
  | (k₁, v₁) :: rest =>
    if k₁ = k then (k, v) :: rest else (k₁, v₁) :: dictInsert k v rest

/-- Python `dict` lookup on the association-list model. -/
def dictFind {κ ν : Type} [DecidableEq κ] (k : κ) : List (κ × ν) → Option ν
  | [] => none
  | (k₁, v₁) :: rest => if k₁ = k then some v₁ else dictFind k rest

/-- The body of the `for item in items` loop of `fetch_ohlcv_range`
(`pykis/api/quote.py`): an item is inserted into the keyed accumulator
exactly when its `stck_bsop_date` is present and within the requested
`[start, endd]` range. -/
def insertDailyItem (start endd : Int) (now : DT)
    (acc : List (Int × OHLCV)) (item : RawDailyItem) : List (Int × OHLCV) :=
  match item.stck_bsop_date with
  | some d =>
    if start ≤ d ∧ d ≤ endd then dictInsert d (OHLCV.from_kis now item) acc else acc
  | none => acc

/-- Folding one window's `output2` items into the accumulator. -/
def mergeDailyItems (start endd : Int) (now : DT)
    (acc : List (Int × OHLCV)) (items : List RawDailyItem) : List (Int × OHLCV) :=
  items.foldl (insertDailyItem start endd now) acc

/-- Fuel-indexed form of the window walk; the fuel is an upper bound on the
number of iterations (each iteration moves `current_end` down by at least
one day), so every sufficient fuel computes the same list
(`windowsFromAux_congr`). -/
def windowsFromAux (start : Int) (chunk : Nat) : Nat → Int → List (Int × Int)
  | 0, _ => []
  | fuel + 1, ce =>
    if start ≤ ce then
      (max start (ce - chunk), ce) ::
        windowsFromAux start chunk fuel (max start (ce - chunk) - 1)
    else []

/-- The sequence of request windows `(current_start, current_end)` generated
by the `while current_end >= start_dt` loop of `fetch_ohlcv_range`, newest
first: each window is `(max start (ce - chunk), ce)` and the walk continues
from `current_start - 1` (see `windowsFrom_eq` for the loop-shaped
unfolding).  The window sequence depends only on the range and chunk size,
never on the fetched data. -/
def windowsFrom (start : Int) (chunk : Nat) (ce : Int) : List (Int × Int) :=
  windowsFromAux start chunk (ce + 1 - start).toNat ce

/-- Processing the windows in order: each window issues one transport call
(`self._http.get`, modelled by `vendor` composed with `handle_response`); a
raised error aborts the whole pass; a successful response's items are merged
into the accumulator. -/
def runWindows (vendor : Int × Int → KISResponse RawDailyItem)
    (start endd : Int) (now : DT) :
    List (Int × Int) → List (Int × OHLCV) → Except PyError (List (Int × OHLCV))
  | [], acc => .ok acc
  | w :: ws, acc =>
    match handle_response (vendor w) with
    | .error e => .error e
    | .ok resp =>
      runWindows vendor start endd now ws
        (mergeDailyItems start endd now acc resp.output2)

/-- The transport calls actually issued while processing a window list: all
windows up to and including the first one whose response raises. -/
def issuedCalls {α : Type} (vendor : Int × Int → KISResponse α) :
    List (Int × Int) → List (Int × Int)
  | [] => []
  | w :: ws =>
    match handle_response (vendor w) with
    | .error _ => [w]
    | .ok _ => w :: issuedCalls vendor ws

/-- Sorting relation used by the final `sorted(all_data.values(),
key=lambda x: x.datetime)`. -/
def ohlcvLE (a b : OHLCV) : Prop := dtLe a.datetime b.datetime = true

instance : DecidableRel ohlcvLE := fun a b => by unfold ohlcvLE; infer_instance

instance : IsTotal OHLCV ohlcvLE := by
  constructor
  intro a b
  unfold ohlcvLE dtLe
  rcases lt_trichotomy a.datetime.1 b.datetime.1 with h | h | h
  · left; simp [h]
  · rcases Nat.le_total a.datetime.2 b.datetime.2 with h2 | h2
    · left; simp [h, h2]
    · right; simp [h, h2]
  · right; simp [h]

instance : IsTrans OHLCV ohlcvLE := by
  constructor
  intro a b c hab hbc
  unfold ohlcvLE dtLe at *
  simp only [Bool.or_eq_true, Bool.and_eq_true, decide_eq_true_eq] at *
  omega

/-- Model of Python's `sorted(values, key=lambda x: x.datetime)`.  Python's
sort is stable, but the accumulator's values always carry pairwise distinct
datetimes (one value per key, datetime determined by the key), so every
correct sort produces the same list; we use insertion sort, which the kernel
can evaluate. -/
def sortByDatetime (l : List OHLCV) : List OHLCV := List.insertionSort ohlcvLE l

/-- The per-timeframe window size of `fetch_ohlcv_range`: 150 days for daily
candles, 365 days otherwise. -/
def chunkDaysFor (timeframe : String) : Nat := if timeframe = "1d" then 150 else 365

/-- Model of `QuoteAPI.fetch_ohlcv_range` (`pykis/api/quote.py`): the end
date defaults to today (`now.1`), the range is partitioned into windows
newest-first, each window is fetched and merged into a keyed accumulator,
and the accumulated values are returned sorted ascending by datetime.  A
failed window aborts the pass with the raised error. -/
def fetch_ohlcv_range (vendor : Int × Int → KISResponse RawDailyItem)
    (timeframe : String) (now : DT) (start : Int) (endOpt : Option Int) :
    Except PyError (List OHLCV) :=
  let endd := endOpt.getD now.1
  match runWindows vendor start endd now
      (windowsFrom start (chunkDaysFor timeframe) endd) [] with
  | .error e => .error e
  | .ok acc => .ok (sortByDatetime (acc.map Prod.snd))

/-- One item of the minute-chart endpoint's `output2` list, restricted to the
fields `fetch_minute_ohlcv` reads.  `stck_cntg_hour = none` models an absent
or empty time string; a present time is the `HHMMSS` value. -/
structure RawMinuteItem where
  stck_bsop_date : Option Int
  stck_cntg_hour : Option Nat
  stck_oprc : ℚ
  stck_hgpr : ℚ
  stck_lwpr : ℚ
  stck_prpr : ℚ
  cntg_vol : Int
  deriving Repr, DecidableEq

/-- The fixed anchor times of `fetch_minute_ohlcv`. -/
def minuteAnchors : List Nat := [153000, 140000, 120000, 100000, 93000]

/-- The body of the `for item in items` loop of `fetch_minute_ohlcv`
(`pykis/api/quote.py`): items lacking a date or a time are skipped, the
interval filter drops buckets whose minute-of-hour (`int(time_str[2:4])`,
i.e. `t / 100 % 100` for a six-digit time) is not a multiple of `interval`,
and every item that survives reaches the `OHLCV(datetime=dt, open=..., ...)`
constructor call.  That call omits the required `timestamp` field of the
`OHLCV` pydantic model (`pykis/models/ohlcv.py` declares `timestamp: int`
with no default), so pydantic raises a `ValidationError` there; the model
reproduces this faithfully. -/
def processMinuteItem (interval : Nat) (acc : List ((Int × Nat) × OHLCV))
    (item : RawMinuteItem) : Except PyError (List ((Int × Nat) × OHLCV)) :=
  match item.stck_bsop_date, item.stck_cntg_hour with
  | some _, some t =>
    let minute := t / 100 % 100
    if 1 < interval ∧ ¬ minute % interval = 0 then .ok acc
    else .error (.validationError "1 validation error for OHLCV: timestamp Field required")
  | _, _ => .ok acc

/-- Folding one anchor's `output2` items, propagating a raised error. -/
def processMinuteItems (interval : Nat) :
    List ((Int × Nat) × OHLCV) → List RawMinuteItem →
      Except PyError (List ((Int × Nat) × OHLCV))
  | acc, [] => .ok acc
  | acc, item :: rest =>
    match processMinuteItem interval acc item with
    | .error e => .error e
    | .ok acc₂ => processMinuteItems interval acc₂ rest

/-- The `for start_time in times` loop of `fetch_minute_ohlcv`: one transport
call per anchor time, merged in order; any raised error aborts the pass. -/
def runMinuteAnchors (vendor : Nat → KISResponse RawMinuteItem) (interval : Nat) :
    List Nat → List ((Int × Nat) × OHLCV) →
      Except PyError (List ((Int × Nat) × OHLCV))
  | [], acc => .ok acc
  | t :: ts, acc =>
    match handle_response (vendor t) with
    | .error e => .error e
    | .ok resp =>
      match processMinuteItems interval acc resp.output2 with
      | .error e => .error e
      | .ok acc₂ => runMinuteAnchors vendor interval ts acc₂

/-- Model of `QuoteAPI.fetch_minute_ohlcv` (`pykis/api/quote.py`). -/
def fetch_minute_ohlcv (vendor : Nat → KISResponse RawMinuteItem)
    (interval : Nat) : Except PyError (List OHLCV) :=
  match runMinuteAnchors vendor interval minuteAnchors [] with
  | .error e => .error e
  | .ok acc => .ok (sortByDatetime (acc.map Prod.snd))

/-- The credential-holding state of `AsyncAuthManager`
(`pykis/auth/async_manager.py`): the held token and expiry
(`self._token` / `self._expires`, expiry in epoch seconds) together with the
token-store file contents (`store = none` models an absent file).  `_load_token`
and filesystem behaviour are outside the modelled operations. -/
structure AuthState where
  token : Option String
  expires : Option Int
  store : Option (Option String × Option Int)
  deriving Repr, DecidableEq

/-- The refresh safety margin, `timedelta(minutes=5)` in seconds. -/
def SAFETY_MARGIN : Int := 300

/-- Model of `AsyncAuthManager._is_expired`: `not self._token` is true for a
missing token and also for an empty-string token (Python falsiness);
otherwise the credential counts as expired from five minutes before its
expiry. -/
def _is_expired (now : Int) (st : AuthState) : Bool :=
  match st.token, st.expires with
  | some t, some exp =>
    if t = "" then true else decide (now ≥ exp - SAFETY_MARGIN)
  | _, _ => true

/-- The token-issuance response as `_refresh` observes it: `http_error`
models an `httpx.HTTPError` (connection failure or `raise_for_status` on a
non-2xx status); otherwise the JSON body's optional `access_token`,
`expires_in`, `msg1` and `msg_cd` fields. -/
structure TokenResponse where
  http_error : Bool
  access_token : Option String
  expires_in : Option Int
  msg1 : Option String
  msg_cd : Option String
  deriving Repr, DecidableEq

/-- Model of `AsyncAuthManager._refresh`: an HTTP-level error is re-raised as
`AuthenticationError`; a body without `access_token` raises
`AuthenticationError(msg1, code=msg_cd)`; on success the held credential is
replaced (`expires = now + data.get("expires_in", 86400)`) and persisted to
the token store by `_save_token`.  The Python method mutates `self` only on
the success path, so the error cases return `Except.error` and the caller
keeps the previous state. -/
def _refresh (now : Int) (resp : TokenResponse) : Except PyError AuthState :=
  if resp.http_error then
    .error (.authenticationError "토큰 발급 HTTP 오류" none)
  else
    match resp.access_token with
    | none => .error (.authenticationError (resp.msg1.getD "토큰 발급 실패") resp.msg_cd)
    | some tok =>
      let exp := now + resp.expires_in.getD 86400
      .ok { token := some tok, expires := some exp, store := some (some tok, some exp) }

/-- The header set returned by `get_headers`.  The `Content-Type` entry is
the field `contentType`. -/
structure Headers where
  authorization : String
  appkey : String
  appsecret : String
  contentType : String
  deriving Repr, DecidableEq

/-- The headers built from the current state: `f"Bearer {self._token}"`
renders a missing token as the string `"None"`. -/
def mkHeaders (appKey appSecret : String) (st : AuthState) : Headers :=
  { authorization := "Bearer " ++ (match st.token with | some t => t | none => "None")
    appkey := appKey
    appsecret := appSecret
    contentType := "application/json; charset=utf-8" }

/-- Model of `AsyncAuthManager.get_headers`: refresh exactly when
`_is_expired`, then return the headers built from the (possibly replaced)
credential.  The result triple is (headers or raised error, resulting state,
number of token-issuance network calls made during this invocation). -/
def get_headers (appKey appSecret : String) (now : Int) (resp : TokenResponse)
    (st : AuthState) : Except PyError Headers × AuthState × Nat :=
  if _is_expired now st then
    match _refresh now resp with
    | .error e => (.error e, st, 1)
    | .ok stNew => (.ok (mkHeaders appKey appSecret stNew), stNew, 1)
  else
    (.ok (mkHeaders appKey appSecret st), st, 0)

/-- Progress of one concurrent `get_headers()` caller through its atomic
blocks.  Under asyncio's cooperative scheduling, code between `await`
points runs atomically; `get_headers` has two such blocks when the
credential is expired: (1) the synchronous `_is_expired()` check followed by
issuing the token POST (the network call), suspending on `await
client.post`; (2) receiving the response, updating `self._token` /
`self._expires` and saving, then returning. -/
inductive TaskPhase where
  | notStarted
  | awaitingRefresh
  | done
  deriving Repr, DecidableEq

/-- The shared world of `n` concurrent `get_headers()` callers of one
`AsyncAuthManager`: the shared credential state, each task's phase, and the
total number of token-issuance network calls issued so far. -/
structure ConcWorld where
  auth : AuthState
  phases : List TaskPhase
  refreshCalls : Nat
  deriving Repr, DecidableEq

/-- Scheduling task `i` for one atomic block.  A task at `notStarted` runs
the expiry check: if expired it issues the refresh network call (counted
here, since the POST is sent before the task suspends) and suspends,
otherwise it completes immediately with the cached credential.  A task at
`awaitingRefresh` consumes the response: on success it overwrites the shared
credential (last writer wins, as in the unsynchronized Python code), then
completes. -/
def concStep (now : Int) (resp : TokenResponse) (w : ConcWorld) (i : Nat) : ConcWorld :=
  match w.phases[i]? with
  | some .notStarted =>
    if _is_expired now w.auth then
      { w with phases := w.phases.set i .awaitingRefresh
               refreshCalls := w.refreshCalls + 1 }
    else
      { w with phases := w.phases.set i .done }
  | some .awaitingRefresh =>
    match _refresh now resp with
    | .error _ => { w with phases := w.phases.set i .done }
    | .ok stNew => { w with auth := stNew, phases := w.phases.set i .done }
  | _ => w

/-- Running a cooperative schedule: the interleaving is an arbitrary list of
task indices, each entry granting the named task one atomic block. -/
def concRun (now : Int) (resp : TokenResponse) (w : ConcWorld) (sched : List Nat) :
    ConcWorld :=
  sched.foldl (concStep now resp) w

/-- Initial world: `n` callers all about to enter `get_headers`, no
credential held, no network call issued yet. -/
def concInit (n : Nat) : ConcWorld :=
  { auth := { token := none, expires := none, store := none }
    phases := List.replicate n .notStarted
    refreshCalls := 0 }

/-- A successful token-issuance response with the vendor's usual one-day
lifetime. -/
def goodTokenResp : TokenResponse :=
  { http_error := false, access_token := some "tok", expires_in := some 86400
    msg1 := none, msg_cd := none }

/-- Splitting accumulator for `splitOnChar`. -/
def splitOnCharAux (sep : Char) : List Char → List Char → List (List Char)
  | [], cur => [cur.reverse]
  | c :: rest, cur =>
    if c = sep then cur.reverse :: splitOnCharAux sep rest []
    else splitOnCharAux sep rest (c :: cur)

/-- Model of Python `str.split(sep)` for a one-character separator (the
only separators the code uses are `"|"` and `"^"`): splitting the empty
string gives `[""]`, and separators at the ends produce empty pieces. -/
def splitOnChar (sep : Char) (s : String) : List String :=
  (splitOnCharAux sep s.data []).map String.mk

/-- Python truthiness/`startswith` test of
`if not message or message.startswith("{"):` — an empty frame or a
JSON-shaped control frame. -/
def isControlFrame (m : String) : Bool :=
  match m.data with
  | [] => true
  | c :: _ => c = '\x7b'

/-- Digit-string value. -/
def digitsToNat (ds : List Char) : Nat :=
  ds.foldl (fun n c => n * 10 + (c.toNat - 48)) 0

/-- All characters are ASCII digits. -/
def allDigits (ds : List Char) : Bool := ds.all (·.isDigit)

/-- Unsigned part of `pyFloat`: an optional decimal point with digit runs on
either side, at least one digit in total. -/
def pyFloatCore (body : String) : Option ℚ :=
  match splitOnChar '.' body with
  | [ip] =>
    if ip.length > 0 ∧ allDigits ip.data then some (digitsToNat ip.data : ℚ)
    else none
  | [ip, fp] =>
    if ip.length + fp.length > 0 ∧ allDigits ip.data ∧ allDigits fp.data then
      some ((digitsToNat ip.data : ℚ) + (digitsToNat fp.data : ℚ) / (10 ^ fp.length : ℚ))
    else none
  | _ => none

/-- Model of Python `float(str)`, restricted to plain signed decimal
literals (`"-12"`, `"+3.5"`, `"7."`, `".25"`); exponent forms, `inf`/`nan`,
surrounding whitespace and underscore separators are outside the modelled
input domain.  `none` models a raised `ValueError`. -/
def pyFloat (s : String) : Option ℚ :=
  match s.data with
  | '-' :: r => (pyFloatCore (String.mk r)).map (fun q => -q)
  | '+' :: r => pyFloatCore (String.mk r)
  | _ => pyFloatCore s

/-- Unsigned part of `pyInt`: a nonempty digit run. -/
def pyIntCore (body : String) : Option Int :=
  if body.length > 0 ∧ allDigits body.data then some (digitsToNat body.data : Int)
  else none

/-- Model of Python `int(str)` on plain signed decimal literals; `none`
models a raised `ValueError`. -/
def pyInt (s : String) : Option Int :=
  match s.data with
  | '-' :: r => (pyIntCore (String.mk r)).map Neg.neg
  | '+' :: r => pyIntCore (String.mk r)
  | _ => pyIntCore s

/-- The `output` object of the REST price endpoint, restricted to the fields
`Ticker.from_kis` reads; numeric string fields are abstracted to their
values, `none` models an absent key. -/
structure TickerOutput where
  stck_prpr : Option ℚ
  prdy_vrss : Option ℚ
  prdy_vrss_sign : Option String
  prdy_ctrt : Option ℚ
  hts_kor_isnm : Option String
  prdt_name : Option String
  stck_shrn_iscd : Option String
  stck_oprc : Option ℚ
  stck_hgpr : Option ℚ
  stck_lwpr : Option ℚ
  acml_vol : Option Int
  deriving Repr, DecidableEq

/-- The `output` object with every field absent (`data.get("output", {})`
fallback). -/
def emptyTickerOutput : TickerOutput :=
  { stck_prpr := none, prdy_vrss := none, prdy_vrss_sign := none
    prdy_ctrt := none, hts_kor_isnm := none, prdt_name := none
    stck_shrn_iscd := none, stck_oprc := none, stck_hgpr := none
    stck_lwpr := none, acml_vol := none }

/-- A REST price response body as `Ticker.from_kis` reads it. -/
structure TickerResponse where
  output : Option TickerOutput
  deriving Repr, DecidableEq

/-- The `Ticker` pydantic model (`pykis/models/ticker.py`).  `open` is a Lean
keyword, hence `open_`; the raw-response `info` field is carried as the
modelled response. -/
structure Ticker where
  symbol : String
  name : Option String
  timestamp : Int
  datetime : Int
  open_ : ℚ
  high : ℚ
  low : ℚ
  close : ℚ
  last : ℚ
  volume : Int
  change : ℚ
  change_percent : ℚ
  info : Option TickerResponse
  deriving Repr, DecidableEq

/-- Python `a or b` on optional strings: an absent or empty first operand
falls through to the second. -/
def pyOrStr (a b : Option String) : Option String :=
  match a with
  | some s => if s = "" then b else some s
  | none => b

/-- Model of `Ticker.from_kis` (`pykis/models/ticker.py`): the side
indicator `prdy_vrss_sign` (default `"3"`) forces `change` and
`change_percent` to `-abs(value)` when it is a fall code (`"4"` or `"5"`).
`now` is the abstract clock reading used for `timestamp` and `datetime`. -/
def Ticker.from_kis (data : TickerResponse) (symbol : String) (now : Int) : Ticker :=
  let output := data.output.getD emptyTickerOutput
  let last := output.stck_prpr.getD 0
  let change₀ := output.prdy_vrss.getD 0
  let sign := output.prdy_vrss_sign.getD "3"
  let change := if sign = "4" ∨ sign = "5" then -|change₀| else change₀
  let changePct₀ := output.prdy_ctrt.getD 0
  let changePct := if sign = "4" ∨ sign = "5" then -|changePct₀| else changePct₀
  { symbol := symbol
    name := pyOrStr output.hts_kor_isnm (pyOrStr output.prdt_name output.stck_shrn_iscd)
    timestamp := now
    datetime := now
    open_ := output.stck_oprc.getD 0
    high := output.stck_hgpr.getD 0
    low := output.stck_lwpr.getD 0
    close := last
    last := last
    volume := output.acml_vol.getD 0
    change := change
    change_percent := changePct
    info := some data }

/-- The `try` block of `WebSocketClient._parse_ticker_message` over the
caret-separated payload fields, in the source's evaluation order: `float` of
fields 2 (last price), 4 (change) and 5 (change percent); the side-indicator
field 3 read as a raw string and applied to the signs; then, in the `Ticker`
constructor call, `float` of fields 7, 8, 9 and `int` of field 13.  The
first failed conversion raises `ValueError`, caught as `None` (`Option.bind`
short-circuits exactly there). -/
def parseTickerFields (data_parts : List String) (symbol : String) (now : Int) :
    Option Ticker :=
  (pyFloat (data_parts.getD 2 "")).bind fun last =>
  (pyFloat (data_parts.getD 4 "")).bind fun chg =>
  (pyFloat (data_parts.getD 5 "")).bind fun pct =>
  let sign := data_parts.getD 3 ""
  let change := if sign = "4" ∨ sign = "5" then -|chg| else chg
  let change_pct := if sign = "4" ∨ sign = "5" then -|pct| else pct
  (pyFloat (data_parts.getD 7 "")).bind fun o =>
  (pyFloat (data_parts.getD 8 "")).bind fun hi =>
  (pyFloat (data_parts.getD 9 "")).bind fun lo =>
  (pyInt (data_parts.getD 13 "")).map fun vol =>
  { symbol := symbol
    name := none
    timestamp := now
    datetime := now
    open_ := o
    high := hi
    low := lo
    close := last
    last := last
    volume := vol
    change := change
    change_percent := change_pct
    info := none }

/-- Model of `WebSocketClient._parse_ticker_message`
(`pykis/websocket/client.py`): control frames, envelopes with fewer than 4
pipe-separated parts, payloads with fewer than 20 caret-separated fields,
and numeric conversion failures all yield `None`. -/
def _parse_ticker_message (message symbol : String) (now : Int) : Option Ticker :=
  if isControlFrame message then none
  else
    let parts := splitOnChar '|' message
    if parts.length < 4 then none
    else
      let data_parts := splitOnChar '^' (parts.getD 3 "")
      if data_parts.length < 20 then none
      else parseTickerFields data_parts symbol now

/-- Model of the receive loop of `WebSocketClient.watch_ticker`: each inbound
frame is parsed, a `None` (or any raised exception, swallowed by the
`try/except: continue`) contributes nothing, and every successfully parsed
frame yields its `Ticker` in arrival order. -/
def watch_ticker (symbol : String) (now : Int) (frames : List String) : List Ticker :=
  frames.filterMap (fun m => _parse_ticker_message m symbol now)

/-- Any two sufficient fuels compute the same window walk. -/
theorem windowsFromAux_congr (start : Int) (chunk : Nat) :
    ∀ f₁ f₂ ce, (ce + 1 - start).toNat ≤ f₁ → (ce + 1 - start).toNat ≤ f₂ →
      windowsFromAux start chunk f₁ ce = windowsFromAux start chunk f₂ ce := by
  intro f₁
  induction f₁ with
  | zero =>
    intro f₂ ce h₁ h₂
    have hce : ¬ start ≤ ce := by omega
    cases f₂ with
    | zero => rfl
    | succ n => simp [windowsFromAux, hce]
  | succ n ih =>
    intro f₂ ce h₁ h₂
    cases f₂ with
    | zero =>
      have hce : ¬ start ≤ ce := by omega
      simp [windowsFromAux, hce]
    | succ m =>
      simp only [windowsFromAux]
      by_cases hce : start ≤ ce
      · simp only [hce, if_true]
        have hub : max start (ce - chunk) ≤ ce := by
          apply max_le hce; omega
        have hlb : start ≤ max start (ce - chunk) := le_max_left _ _
        congr 1
        exact ih m _ (by omega) (by omega)
      · simp [hce]

/-- The loop-shaped unfolding of the window walk, matching the
`while current_end >= start_dt` loop of `fetch_ohlcv_range` literally. -/
theorem windowsFrom_eq (start : Int) (chunk : Nat) (ce : Int) :
    windowsFrom start chunk ce =
      if start ≤ ce then
        (max start (ce - chunk), ce) ::
          windowsFrom start chunk (max start (ce - chunk) - 1)
      else [] := by
  unfold windowsFrom
  by_cases hce : start ≤ ce
  · have hm : (ce + 1 - start).toNat = ((ce + 1 - start).toNat - 1) + 1 := by omega
    rw [hm]
    simp only [windowsFromAux, hce, if_true]
    have hub : max start (ce - chunk) ≤ ce := by apply max_le hce; omega
    have hlb : start ≤ max start (ce - chunk) := le_max_left _ _
    congr 1
    exact windowsFromAux_congr start chunk _ _ _ (by omega) (by omega)
  · have hm : (ce + 1 - start).toNat = 0 := by omega
    rw [hm]
    simp [windowsFromAux, hce]

/-- Folding a stream of keyed contributions into a dict, leftmost first:
the characterization of the aggregation loop's accumulator. -/
def dictFold {κ ν : Type} [DecidableEq κ]
    (acc : List (κ × ν)) (pairs : List (κ × ν)) : List (κ × ν) :=
  pairs.foldl (fun a p => dictInsert p.1 p.2 a) acc

theorem dictFold_append {κ ν : Type} [DecidableEq κ]
    (acc l₁ l₂ : List (κ × ν)) :
    dictFold acc (l₁ ++ l₂) = dictFold (dictFold acc l₁) l₂ := by
  simp [dictFold]

/-- Every member of the dict after an insert is the inserted pair or an old
member. -/
theorem mem_dictInsert {κ ν : Type} [DecidableEq κ] {p : κ × ν} (k : κ) (v : ν) :
    ∀ l : List (κ × ν), p ∈ dictInsert k v l → p = (k, v) ∨ p ∈ l := by
  intro l
  induction l with
  | nil => simp [dictInsert]
  | cons q rest ih =>
    obtain ⟨k₁, v₁⟩ := q
    simp only [dictInsert]
    by_cases hk : k₁ = k
    · simp only [hk, if_true, List.mem_cons]
      rintro (h | h)
      · exact Or.inl h
      · exact Or.inr (Or.inr h)
    · simp only [hk, if_false, List.mem_cons]
      rintro (h | h)
      · exact Or.inr (Or.inl h)
      · rcases ih h with h₂ | h₂
        · exact Or.inl h₂
        · exact Or.inr (Or.inr h₂)

/-- The key list after an insert: unchanged when the key was bound, extended
at the end otherwise (Python `dict` insertion semantics). -/
theorem keys_dictInsert {κ ν : Type} [DecidableEq κ] (k : κ) (v : ν) :
    ∀ l : List (κ × ν),
      (dictInsert k v l).map Prod.fst =
        if k ∈ l.map Prod.fst then l.map Prod.fst else l.map Prod.fst ++ [k] := by
  intro l
  induction l with
  | nil => simp [dictInsert]
  | cons q rest ih =>
    obtain ⟨k₁, v₁⟩ := q
    simp only [dictInsert, List.map_cons]
    by_cases hk : k₁ = k
    · subst hk
      simp
    · have hne : ¬ k = k₁ := fun h => hk h.symm
      simp only [hk, if_false, List.map_cons, List.mem_cons, hne, false_or, ih]
      by_cases hmem : k ∈ rest.map Prod.fst <;> simp [hmem]

/-- Keyed insertion preserves distinctness of the keys. -/
theorem nodup_keys_dictInsert {κ ν : Type} [DecidableEq κ] (k : κ) (v : ν)
    (l : List (κ × ν)) (h : (l.map Prod.fst).Nodup) :
    ((dictInsert k v l).map Prod.fst).Nodup := by
  rw [keys_dictInsert]
  by_cases hmem : k ∈ l.map Prod.fst
  · simpa [hmem]
  · simp only [hmem, if_false]
    simp [List.nodup_append, h, hmem]

theorem dictFind_dictInsert_self {κ ν : Type} [DecidableEq κ] (k : κ) (v : ν) :
    ∀ l : List (κ × ν), dictFind k (dictInsert k v l) = some v := by
  intro l
  induction l with
  | nil => simp [dictInsert, dictFind]
  | cons q rest ih =>
    obtain ⟨k₁, v₁⟩ := q
    simp only [dictInsert]
    by_cases hk : k₁ = k
    · simp [hk, dictFind]
    · simp [hk, dictFind, ih]

theorem dictFind_dictInsert_ne {κ ν : Type} [DecidableEq κ] {k k₂ : κ}
    (h : k₂ ≠ k) (v : ν) :
    ∀ l : List (κ × ν), dictFind k₂ (dictInsert k v l) = dictFind k₂ l := by
  intro l
  have hks : ¬ k = k₂ := fun hh => h hh.symm
  induction l with
  | nil => simp [dictInsert, dictFind, hks]
  | cons q rest ih =>
    obtain ⟨k₁, v₁⟩ := q
    simp only [dictInsert]
    by_cases hk : k₁ = k
    · subst hk
      simp [dictFind, hks]
    · simp only [hk, if_false, dictFind]
      by_cases hk₂ : k₁ = k₂ <;> simp [hk₂, ih]

/-- The value of the last contribution carrying key `k`, if any. -/
def lastContrib {κ ν : Type} [DecidableEq κ] (k : κ) : List (κ × ν) → Option ν
  | [] => none
  | p :: rest =>
    match lastContrib k rest with
    | some v => some v
    | none => if p.1 = k then some p.2 else none

/-- Folding a contribution stream into a dict realizes last-write-wins: the
binding of `k` afterwards is the last contribution with key `k`, or the
prior binding when the stream never mentions `k`. -/
theorem dictFind_dictFold {κ ν : Type} [DecidableEq κ] (k : κ) :
    ∀ (pairs : List (κ × ν)) (acc : List (κ × ν)),
      dictFind k (dictFold acc pairs) =
        match lastContrib k pairs with
        | some v => some v
        | none => dictFind k acc := by
  intro pairs
  induction pairs with
  | nil => intro acc; rfl
  | cons p rest ih =>
    intro acc
    have hstep : dictFold acc (p :: rest) = dictFold (dictInsert p.1 p.2 acc) rest := rfl
    rw [hstep, ih]
    simp only [lastContrib]
    cases hlast : lastContrib k rest with
    | some v => simp
    | none =>
      simp only []
      by_cases hk : p.1 = k
      · subst hk
        simp [dictFind_dictInsert_self]
      · have : k ≠ p.1 := fun h => hk h.symm
        simp [hk, dictFind_dictInsert_ne this]

/-- The last contribution with key `k` is unchanged by restricting the
stream to the contributions with key `k`. -/
theorem lastContrib_filter_self {κ ν : Type} [DecidableEq κ] (k : κ) :
    ∀ pairs : List (κ × ν),
      lastContrib k pairs =
        lastContrib k (pairs.filter (fun p => decide (p.1 = k))) := by
  intro pairs
  induction pairs with
  | nil => rfl
  | cons p rest ih =>
    simp only [List.filter_cons]
    by_cases hp : p.1 = k
    · simp only [hp, decide_eq_true_eq, if_true, lastContrib, ← ih]
    · simp only [hp, decide_eq_true_eq, if_false, lastContrib, ← ih]
      cases lastContrib k rest <;> simp [hp]

/-- The in-range keyed contributions of one response's item list, in item
order: exactly the `(date, OHLCV.from_kis item)` pairs the loop body inserts. -/
def inRangeContribs (start endd : Int) (now : DT)
    (items : List RawDailyItem) : List (Int × OHLCV) :=
  items.filterMap (fun item =>
    match item.stck_bsop_date with
    | some d =>
      if start ≤ d ∧ d ≤ endd then some (d, OHLCV.from_kis now item) else none
    | none => none)

/-- Merging a window's items is folding its in-range contributions into the
dict. -/
theorem mergeDailyItems_eq_dictFold (start endd : Int) (now : DT) :
    ∀ (items : List RawDailyItem) (acc : List (Int × OHLCV)),
      mergeDailyItems start endd now acc items =
        dictFold acc (inRangeContribs start endd now items) := by
  intro items
  induction items with
  | nil => intro acc; rfl
  | cons item rest ih =>
    intro acc
    have hmerge : mergeDailyItems start endd now acc (item :: rest) =
        mergeDailyItems start endd now (insertDailyItem start endd now acc item) rest := rfl
    rw [hmerge, ih]
    simp only [inRangeContribs, List.filterMap_cons]
    cases hd : item.stck_bsop_date with
    | none => simp [insertDailyItem, hd, inRangeContribs]
    | some d =>
      by_cases hr : start ≤ d ∧ d ≤ endd
      · simp only [hd, hr, if_true]
        have : insertDailyItem start endd now acc item =
            dictInsert d (OHLCV.from_kis now item) acc := by
          simp [insertDailyItem, hd, hr]
        rw [this]
        rfl
      · simp only [hd, hr, if_false]
        have : insertDailyItem start endd now acc item = acc := by
          simp [insertDailyItem, hd, hr]
        rw [this]

/-- The full contribution stream of a window list, in processing
(aggregation) order. -/
def windowContribs (vendor : Int × Int → KISResponse RawDailyItem)
    (start endd : Int) (now : DT) : List (Int × Int) → List (Int × OHLCV)
  | [] => []
  | w :: ws =>
    inRangeContribs start endd now (vendor w).output2 ++
      windowContribs vendor start endd now ws

theorem handle_response_ok {α : Type} {resp r : KISResponse α}
    (h : handle_response resp = .ok r) : r = resp := by
  unfold handle_response at h
  split at h
  · exact absurd h (by simp)
  · split at h
    · exact absurd h (by simp)
    · injection h with h
      exact h.symm

/-- A successful pass over a window list yields the fold of the whole
contribution stream, and every window's transport call succeeded. -/
theorem runWindows_ok (vendor : Int × Int → KISResponse RawDailyItem)
    (start endd : Int) (now : DT) :
    ∀ (ws : List (Int × Int)) (acc res : List (Int × OHLCV)),
      runWindows vendor start endd now ws acc = .ok res →
        res = dictFold acc (windowContribs vendor start endd now ws) ∧
          ∀ w ∈ ws, ∃ r, handle_response (vendor w) = .ok r := by
  intro ws
  induction ws with
  | nil =>
    intro acc res h
    simp only [runWindows] at h
    injection h with h
    exact ⟨h.symm, by simp⟩
  | cons w rest ih =>
    intro acc res h
    simp only [runWindows] at h
    cases hh : handle_response (vendor w) with
    | error e => rw [hh] at h; exact absurd h (by simp)
    | ok resp =>
      rw [hh] at h
      obtain ⟨h₁, h₂⟩ := ih _ res h
      have hr : resp = vendor w := handle_response_ok hh
      subst hr
      constructor
      · rw [h₁, mergeDailyItems_eq_dictFold]
        simp only [windowContribs, dictFold_append]
      · intro u hu
        rcases List.mem_cons.mp hu with hu | hu
        · subst hu; exact ⟨_, hh⟩
        · exact h₂ u hu

/-- A pass over a window list whose calls all succeed issues exactly one
transport call per window. -/
theorem issuedCalls_of_all_ok {α : Type} (vendor : Int × Int → KISResponse α) :
    ∀ ws : List (Int × Int),
      (∀ w ∈ ws, ∃ r, handle_response (vendor w) = .ok r) →
        issuedCalls vendor ws = ws := by
  intro ws
  induction ws with
  | nil => intro _; rfl
  | cons w rest ih =>
    intro h
    obtain ⟨r, hr⟩ := h w (List.mem_cons_self _ _)
    simp only [issuedCalls, hr]
    rw [ih (fun u hu => h u (List.mem_cons_of_mem _ hu))]

/-- Invariant propagation through a dict fold. -/
theorem mem_dictFold {κ ν : Type} [DecidableEq κ] (Q : κ × ν → Prop) :
    ∀ (pairs acc : List (κ × ν)),
      (∀ p ∈ acc, Q p) → (∀ p ∈ pairs, Q p) →
        ∀ p ∈ dictFold acc pairs, Q p := by
  intro pairs
  induction pairs with
  | nil => intro acc hacc _ p hp; exact hacc p hp
  | cons q rest ih =>
    intro acc hacc hpairs p hp
    have hstep : dictFold acc (q :: rest) = dictFold (dictInsert q.1 q.2 acc) rest := rfl
    rw [hstep] at hp
    refine ih _ ?_ (fun u hu => hpairs u (List.mem_cons_of_mem _ hu)) p hp
    intro u hu
    rcases mem_dictInsert q.1 q.2 acc hu with h | h
    · have : u = q := by rw [h]
      exact this ▸ hpairs q (List.mem_cons_self _ _)
    · exact hacc u h

/-- A dict fold preserves distinctness of the keys. -/
theorem nodup_keys_dictFold {κ ν : Type} [DecidableEq κ] :
    ∀ (pairs acc : List (κ × ν)),
      (acc.map Prod.fst).Nodup → ((dictFold acc pairs).map Prod.fst).Nodup := by
  intro pairs
  induction pairs with
  | nil => intro acc h; exact h
  | cons q rest ih =>
    intro acc h
    exact ih _ (nodup_keys_dictInsert q.1 q.2 acc h)

/-- Every in-range contribution is keyed by its own candle date and lies in
the requested range. -/
theorem mem_inRangeContribs {start endd : Int} {now : DT}
    {items : List RawDailyItem} :
    ∀ p ∈ inRangeContribs start endd now items,
      p.2.datetime = (p.1, 0) ∧ start ≤ p.1 ∧ p.1 ≤ endd := by
  intro p hp
  rcases List.mem_filterMap.mp hp with ⟨item, _, hf⟩
  cases hd : item.stck_bsop_date with
  | none => rw [hd] at hf; exact absurd hf (by simp)
  | some d =>
    rw [hd] at hf
    have hf₂ : (if start ≤ d ∧ d ≤ endd then
        some (d, OHLCV.from_kis now item) else none) = some p := hf
    by_cases hr : start ≤ d ∧ d ≤ endd
    · rw [if_pos hr] at hf₂
      injection hf₂ with hf₂
      subst hf₂
      refine ⟨?_, hr.1, hr.2⟩
      simp [OHLCV.from_kis, hd]
    · rw [if_neg hr] at hf₂
      exact absurd hf₂ (by simp)

theorem mem_windowContribs {vendor : Int × Int → KISResponse RawDailyItem}
    {start endd : Int} {now : DT} :
    ∀ (ws : List (Int × Int)), ∀ p ∈ windowContribs vendor start endd now ws,
      p.2.datetime = (p.1, 0) ∧ start ≤ p.1 ∧ p.1 ≤ endd := by
  intro ws
  induction ws with
  | nil => intro p hp; exact absurd hp (by simp [windowContribs])
  | cons w rest ih =>
    intro p hp
    rcases List.mem_append.mp hp with h | h
    · exact mem_inRangeContribs p h
    · exact ih p h

/-- In a dict whose values are keyed by their own datetime, the value bound
to `k` is the unique value carrying datetime `(k, 0)`. -/
theorem values_filter_of_find {res : List (Int × OHLCV)} (k : Int) (v : OHLCV) :
    (res.map Prod.fst).Nodup →
    (∀ p ∈ res, p.2.datetime = (p.1, 0)) →
    dictFind k res = some v →
    (res.map Prod.snd).filter (fun o => decide (o.datetime = (k, 0))) = [v] := by
  induction res with
  | nil => intro _ _ hfind; exact absurd hfind (by simp [dictFind])
  | cons q rest ih =>
    intro hnd hdt hfind
    obtain ⟨k₁, v₁⟩ := q
    simp only [dictFind] at hfind
    simp only [List.map_cons, List.nodup_cons, List.mem_map] at hnd
    by_cases hk : k₁ = k
    · rw [if_pos hk] at hfind
      have hv : v₁ = v := by injection hfind
      have hdt₁ : v₁.datetime = (k, 0) := by
        rw [hdt (k₁, v₁) (List.mem_cons_self _ _), hk]
      have hrest : (rest.map Prod.snd).filter
          (fun o => decide (o.datetime = (k, 0))) = [] := by
        rw [List.filter_eq_nil_iff]
        intro a ha
        rcases List.mem_map.mp ha with ⟨p, hp, hpa⟩
        have hpd : p.2.datetime = (p.1, 0) := hdt p (List.mem_cons_of_mem _ hp)
        have hne : p.1 ≠ k₁ := fun hh => hnd.1 ⟨p, hp, hh⟩
        simp only [← hpa, hpd, decide_eq_true_eq]
        intro hc
        exact hne ((congrArg Prod.fst hc).trans hk.symm)
      rw [← hv]
      simp [List.filter_cons, hdt₁, hrest]
    · rw [if_neg hk] at hfind
      have hdt₁ : v₁.datetime = (k₁, 0) := hdt (k₁, v₁) (List.mem_cons_self _ _)
      simp only [List.map_cons, List.filter_cons, hdt₁, decide_eq_true_eq]
      have hne : ¬ ((k₁, 0) : DT) = (k, 0) := by
        intro hc
        exact hk (congrArg Prod.fst hc)
      rw [if_neg hne]
      exact ih hnd.2 (fun p hp => hdt p (List.mem_cons_of_mem _ hp)) hfind

/-- The values of a dict with distinct keys, each keyed by its own datetime,
carry pairwise distinct datetimes. -/
theorem pairwise_ne_datetime_values {res : List (Int × OHLCV)} :
    (res.map Prod.fst).Nodup →
    (∀ p ∈ res, p.2.datetime = (p.1, 0)) →
    (res.map Prod.snd).Pairwise (fun a b => a.datetime ≠ b.datetime) := by
  induction res with
  | nil => intro _ _; simp
  | cons q rest ih =>
    intro hnd hdt
    obtain ⟨k₁, v₁⟩ := q
    simp only [List.map_cons, List.nodup_cons, List.mem_map] at hnd
    simp only [List.map_cons, List.pairwise_cons]
    constructor
    · intro b hb
      rcases List.mem_map.mp hb with ⟨p, hp, hpb⟩
      have hpd : p.2.datetime = (p.1, 0) := hdt p (List.mem_cons_of_mem _ hp)
      have h₁ : v₁.datetime = (k₁, 0) := hdt (k₁, v₁) (List.mem_cons_self _ _)
      have hne : p.1 ≠ k₁ := fun hh => hnd.1 ⟨p, hp, hh⟩
      rw [← hpb, h₁, hpd]
      intro hc
      exact hne (congrArg Prod.fst hc).symm
    · exact ih hnd.2 (fun p hp => hdt p (List.mem_cons_of_mem _ hp))

theorem sortByDatetime_perm (l : List OHLCV) : (sortByDatetime l).Perm l :=
  List.perm_insertionSort _ _

theorem sortByDatetime_sorted (l : List OHLCV) :
    (sortByDatetime l).Pairwise ohlcvLE :=
  List.sorted_insertionSort _ _

/-- A series sorted by `dtLe` whose datetimes are pairwise distinct is
strictly ascending. -/
theorem pairwise_dtLt_of_le_ne {l : List OHLCV}
    (hle : l.Pairwise ohlcvLE)
    (hne : l.Pairwise (fun a b => a.datetime ≠ b.datetime)) :
    l.Pairwise (fun a b => dtLt a.datetime b.datetime) := by
  refine (hle.and hne).imp ?_
  rintro a b ⟨h₁, h₂⟩
  unfold ohlcvLE dtLe at h₁
  unfold dtLt
  simp only [Bool.or_eq_true, Bool.and_eq_true, decide_eq_true_eq] at h₁
  have h₃ : ¬ (a.datetime.1 = b.datetime.1 ∧ a.datetime.2 = b.datetime.2) := by
    intro hc
    exact h₂ (Prod.ext hc.1 hc.2)
  omega

/-- Characterization of a successful `fetch_ohlcv_range` pass: the series is
the sorted value list of the fold of the full contribution stream, and every
window's transport call succeeded. -/
theorem fetch_ohlcv_range_ok (vendor : Int × Int → KISResponse RawDailyItem)
    (timeframe : String) (now : DT) (start : Int) (endOpt : Option Int)
    (series : List OHLCV)
    (h : fetch_ohlcv_range vendor timeframe now start endOpt = .ok series) :
    series = sortByDatetime ((dictFold []
        (windowContribs vendor start (endOpt.getD now.1) now
          (windowsFrom start (chunkDaysFor timeframe) (endOpt.getD now.1)))).map Prod.snd) ∧
      ∀ w ∈ windowsFrom start (chunkDaysFor timeframe) (endOpt.getD now.1),
        ∃ r, handle_response (vendor w) = .ok r := by
  unfold fetch_ohlcv_range at h
  have h₀ : (match runWindows vendor start (endOpt.getD now.1) now
      (windowsFrom start (chunkDaysFor timeframe) (endOpt.getD now.1)) [] with
    | Except.error e => Except.error e
    | Except.ok acc => Except.ok (sortByDatetime (acc.map Prod.snd))) =
      Except.ok series := h
  cases hrun : runWindows vendor start (endOpt.getD now.1) now
      (windowsFrom start (chunkDaysFor timeframe) (endOpt.getD now.1)) [] with
  | error e => rw [hrun] at h₀; exact absurd h₀ (by simp)
  | ok acc =>
    rw [hrun] at h₀
    injection h₀ with h₀
    obtain ⟨h₁, h₂⟩ := runWindows_ok vendor start (endOpt.getD now.1) now _ _ _ hrun
    exact ⟨by rw [← h₀, h₁], h₂⟩

/-- The per-item step of the minute aggregation never grows the accumulator
without raising: every item that survives the filters hits the pydantic
`ValidationError` (missing `timestamp`). -/
theorem processMinuteItem_ok {interval : Nat} {acc acc₂ : List ((Int × Nat) × OHLCV)}
    {item : RawMinuteItem} (h : processMinuteItem interval acc item = .ok acc₂) :
    acc₂ = acc := by
  unfold processMinuteItem at h
  cases hd : item.stck_bsop_date with
  | none => rw [hd] at h; injection h with h; exact h.symm
  | some d =>
    cases ht : item.stck_cntg_hour with
    | none => rw [hd, ht] at h; injection h with h; exact h.symm
    | some t =>
      rw [hd, ht] at h
      have h₂ : (if 1 < interval ∧ ¬ t / 100 % 100 % interval = 0 then
          (Except.ok acc : Except PyError (List ((Int × Nat) × OHLCV)))
        else .error (.validationError
          "1 validation error for OHLCV: timestamp Field required")) = .ok acc₂ := h
      by_cases hi : 1 < interval ∧ ¬ t / 100 % 100 % interval = 0
      · rw [if_pos hi] at h₂; injection h₂ with h₂; exact h₂.symm
      · rw [if_neg hi] at h₂; exact absurd h₂ (by simp)

theorem processMinuteItems_ok {interval : Nat} :
    ∀ (items : List RawMinuteItem) (acc acc₂ : List ((Int × Nat) × OHLCV)),
      processMinuteItems interval acc items = .ok acc₂ → acc₂ = acc := by
  intro items
  induction items with
  | nil => intro acc acc₂ h; injection h with h; exact h.symm
  | cons item rest ih =>
    intro acc acc₂ h
    simp only [processMinuteItems] at h
    cases hstep : processMinuteItem interval acc item with
    | error e => rw [hstep] at h; exact absurd h (by simp)
    | ok acc₁ =>
      rw [hstep] at h
      have h₂ : processMinuteItems interval acc₁ rest = .ok acc₂ := h
      rw [ih _ _ h₂]
      exact processMinuteItem_ok hstep

theorem runMinuteAnchors_ok {vendor : Nat → KISResponse RawMinuteItem}
    {interval : Nat} :
    ∀ (ts : List Nat) (acc acc₂ : List ((Int × Nat) × OHLCV)),
      runMinuteAnchors vendor interval ts acc = .ok acc₂ → acc₂ = acc := by
  intro ts
  induction ts with
  | nil => intro acc acc₂ h; injection h with h; exact h.symm
  | cons t rest ih =>
    intro acc acc₂ h
    simp only [runMinuteAnchors] at h
    cases hh : handle_response (vendor t) with
    | error e => rw [hh] at h; exact absurd h (by simp)
    | ok resp =>
      rw [hh] at h
      have h₂ : (match processMinuteItems interval acc resp.output2 with
        | Except.error e => (Except.error e : Except PyError (List ((Int × Nat) × OHLCV)))
        | Except.ok acc₃ => runMinuteAnchors vendor interval rest acc₃) =
          Except.ok acc₂ := h
      cases hm : processMinuteItems interval acc resp.output2 with
      | error e => rw [hm] at h₂; exact absurd h₂ (by simp)
      | ok acc₁ =>
        rw [hm] at h₂
        have h₃ : runMinuteAnchors vendor interval rest acc₁ = .ok acc₂ := h₂
        rw [ih _ _ h₃]
        exact processMinuteItems_ok _ _ _ hm

/-- `fetch_minute_ohlcv` can only return without raising when no fetched
item survived the filters, i.e. the returned series is empty (every
surviving item raises the pydantic `ValidationError`). -/
theorem fetch_minute_ohlcv_ok {vendor : Nat → KISResponse RawMinuteItem}
    {interval : Nat} {series : List OHLCV}
    (h : fetch_minute_ohlcv vendor interval = .ok series) : series = [] := by
  unfold fetch_minute_ohlcv at h
  cases hrun : runMinuteAnchors vendor interval minuteAnchors [] with
  | error e => rw [hrun] at h; exact absurd h (by simp)
  | ok acc =>
    rw [hrun] at h
    injection h with h
    rw [runMinuteAnchors_ok _ _ _ hrun] at h
    exact h.symm

/-- Granting every task of a pending block of `m` tasks its first atomic
block, while the shared credential stays expired: the shared state is
untouched, each check issues its own refresh network call, and tasks beyond
the block are untouched. -/
theorem concRun_checks (now : Int) (resp : TokenResponse) :
    ∀ (m : Nat) (w : ConcWorld),
      _is_expired now w.auth = true →
      (∀ j, j < m → w.phases[j]? = some .notStarted) →
      (concRun now resp w (List.range m)).auth = w.auth ∧
        (concRun now resp w (List.range m)).refreshCalls = w.refreshCalls + m ∧
        (∀ j, m ≤ j →
          (concRun now resp w (List.range m)).phases[j]? = w.phases[j]?) := by
  intro m
  induction m with
  | zero => intro w _ _; exact ⟨rfl, rfl, fun _ _ => rfl⟩
  | succ n ih =>
    intro w hexp hpending
    have hsplit : concRun now resp w (List.range (n + 1)) =
        concStep now resp (concRun now resp w (List.range n)) n := by
      unfold concRun
      rw [List.range_succ, List.foldl_append]
      rfl
    obtain ⟨hauth, hcalls, hrest⟩ :=
      ih w hexp (fun j hj => hpending j (Nat.lt_succ_of_lt hj))
    have hphase : (concRun now resp w (List.range n)).phases[n]? =
        some .notStarted := by
      rw [hrest n (Nat.le_refl n)]
      exact hpending n (Nat.lt_succ_self n)
    rw [hsplit]
    unfold concStep
    rw [hphase]
    have hcond : _is_expired now (concRun now resp w (List.range n)).auth = true := by
      rw [hauth]; exact hexp
    simp only [hcond, if_true]
    refine ⟨hauth, ?_, ?_⟩
    · show (concRun now resp w (List.range n)).refreshCalls + 1 =
        w.refreshCalls + (n + 1)
      omega
    · intro j hj
      show ((concRun now resp w (List.range n)).phases.set n .awaitingRefresh)[j]? =
        w.phases[j]?
      have hne : n ≠ j := by omega
      rw [List.getElem?_set_ne hne]
      exact hrest j (by omega)

theorem handle_response_of_rt_ok {α : Type} (resp : KISResponse α)
    (h1 : resp.status_code ≠ 429) (h2 : resp.rt_cd = "0") :
    handle_response resp = .ok resp := by
  unfold handle_response
  simp [h1, h2]

theorem handle_response_of_rt_fail {α : Type} (resp : KISResponse α)
    (h1 : resp.status_code ≠ 429) (h2 : resp.rt_cd ≠ "0") :
    handle_response resp = .error (raise_for_code resp.msg_cd resp.msg1) := by
  unfold handle_response
  simp [h1, h2]

/-- A raised window call aborts the pass with that error, whatever was
already accumulated. -/
theorem runWindows_error (vendor : Int × Int → KISResponse RawDailyItem)
    (start endd : Int) (now : DT) (e : PyError) (w : Int × Int)
    (ws₂ : List (Int × Int)) (herr : handle_response (vendor w) = .error e) :
    ∀ (ws₁ : List (Int × Int)) (acc : List (Int × OHLCV)),
      (∀ u ∈ ws₁, ∃ r, handle_response (vendor u) = .ok r) →
      runWindows vendor start endd now (ws₁ ++ w :: ws₂) acc = .error e := by
  intro ws₁
  induction ws₁ with
  | nil =>
    intro acc _
    simp only [List.nil_append, runWindows, herr]
  | cons u rest ih =>
    intro acc hok
    obtain ⟨r, hr⟩ := hok u (List.mem_cons_self _ _)
    simp only [List.cons_append, runWindows, hr]
    exact ih _ (fun x hx => hok x (List.mem_cons_of_mem _ hx))

theorem fetch_ohlcv_range_error (vendor : Int × Int → KISResponse RawDailyItem)
    (timeframe : String) (now : DT) (start : Int) (endOpt : Option Int)
    (e : PyError)
    (h : runWindows vendor start (endOpt.getD now.1) now
      (windowsFrom start (chunkDaysFor timeframe) (endOpt.getD now.1)) [] = .error e) :
    fetch_ohlcv_range vendor timeframe now start endOpt = .error e := by
  unfold fetch_ohlcv_range
  show (match runWindows vendor start (endOpt.getD now.1) now
      (windowsFrom start (chunkDaysFor timeframe) (endOpt.getD now.1)) [] with
    | Except.error e => Except.error e
    | Except.ok acc => Except.ok (sortByDatetime (acc.map Prod.snd))) = .error e
  rw [h]

/-- Bundle of ordering facts about every successfully returned range series:
strictly ascending datetimes, no duplicate bucket, and every bucket inside
the requested `[start, end]` range (at midnight of its day). -/
theorem fetch_ohlcv_range_series_facts
    (vendor : Int × Int → KISResponse RawDailyItem) (timeframe : String)
    (now : DT) (start : Int) (endOpt : Option Int) (series : List OHLCV)
    (h : fetch_ohlcv_range vendor timeframe now start endOpt = .ok series) :
    series.Pairwise (fun a b => dtLt a.datetime b.datetime) ∧
      (series.map (fun o => o.datetime)).Nodup ∧
      ∀ o ∈ series, start ≤ o.datetime.1 ∧ o.datetime.1 ≤ endOpt.getD now.1 ∧
        o.datetime.2 = 0 := by
  obtain ⟨hser, -⟩ := fetch_ohlcv_range_ok vendor timeframe now start endOpt series h
  have hinv : ∀ p ∈ dictFold []
      (windowContribs vendor start (endOpt.getD now.1) now
        (windowsFrom start (chunkDaysFor timeframe) (endOpt.getD now.1))),
      p.2.datetime = (p.1, 0) ∧ start ≤ p.1 ∧ p.1 ≤ endOpt.getD now.1 := by
    refine mem_dictFold _ _ [] (by simp) ?_
    intro p hp
    exact mem_windowContribs _ p hp
  have hnd : ((dictFold []
      (windowContribs vendor start (endOpt.getD now.1) now
        (windowsFrom start (chunkDaysFor timeframe) (endOpt.getD now.1)))).map
          Prod.fst).Nodup :=
    nodup_keys_dictFold _ [] (by simp)
  have hvalsne : ((dictFold []
      (windowContribs vendor start (endOpt.getD now.1) now
        (windowsFrom start (chunkDaysFor timeframe) (endOpt.getD now.1)))).map
          Prod.snd).Pairwise (fun a b => a.datetime ≠ b.datetime) :=
    pairwise_ne_datetime_values hnd (fun p hp => (hinv p hp).1)
  have hperm := sortByDatetime_perm ((dictFold []
      (windowContribs vendor start (endOpt.getD now.1) now
        (windowsFrom start (chunkDaysFor timeframe) (endOpt.getD now.1)))).map
          Prod.snd)
  have hne : series.Pairwise (fun a b => a.datetime ≠ b.datetime) := by
    rw [hser]
    exact (hperm.pairwise_iff (fun h => h.symm)).mpr hvalsne
  have hle : series.Pairwise ohlcvLE := by
    rw [hser]
    exact sortByDatetime_sorted _
  have hasc := pairwise_dtLt_of_le_ne hle hne
  refine ⟨hasc, ?_, ?_⟩
  · simp only [List.Nodup, List.pairwise_map]
    exact hne
  · intro o ho
    rw [hser] at ho
    rcases List.mem_map.mp (hperm.mem_iff.mp ho) with ⟨p, hp, hpo⟩
    obtain ⟨hdt, hlo, hhi⟩ := hinv p hp
    rw [← hpo, hdt]
    exact ⟨hlo, hhi, rfl⟩

deriving instance DecidableEq for Except

/-- C1: Last-write-wins keyed merge in the range aggregator.  For every
successful `fetch_ohlcv_range` pass in which the processed windows contribute
exactly two items with the same bucket key `k` (`stck_bsop_date`) — `v₁` from
the window processed earlier and `v₂` from the one processed later in
aggregation order — the final merged series contains exactly one entry for
that bucket, and its value is `v₂`, the later contribution (the keyed insert
overwrites the earlier entry; values are never averaged). -/
theorem C1_last_write_wins (vendor : Int × Int → KISResponse RawDailyItem)
    (timeframe : String) (now : DT) (start : Int) (endOpt : Option Int)
    (series : List OHLCV) (k : Int) (v₁ v₂ : OHLCV)
    (hok : fetch_ohlcv_range vendor timeframe now start endOpt = .ok series)
    (hdup : (windowContribs vendor start (endOpt.getD now.1) now
        (windowsFrom start (chunkDaysFor timeframe) (endOpt.getD now.1))).filter
          (fun p => decide (p.1 = k)) = [(k, v₁), (k, v₂)]) :
    series.filter (fun o => decide (o.datetime = (k, 0))) = [v₂] := by
  obtain ⟨hser, -⟩ := fetch_ohlcv_range_ok vendor timeframe now start endOpt series hok
  have hlast : lastContrib k
      (windowContribs vendor start (endOpt.getD now.1) now
        (windowsFrom start (chunkDaysFor timeframe) (endOpt.getD now.1))) = some v₂ := by
    rw [lastContrib_filter_self, hdup]
    simp [lastContrib]
  have hfind : dictFind k (dictFold []
      (windowContribs vendor start (endOpt.getD now.1) now
        (windowsFrom start (chunkDaysFor timeframe) (endOpt.getD now.1)))) = some v₂ := by
    rw [dictFind_dictFold, hlast]
  have hnd : ((dictFold []
      (windowContribs vendor start (endOpt.getD now.1) now
        (windowsFrom start (chunkDaysFor timeframe) (endOpt.getD now.1)))).map
          Prod.fst).Nodup :=
    nodup_keys_dictFold _ [] (by simp)
  have hdtv : ∀ p ∈ dictFold []
      (windowContribs vendor start (endOpt.getD now.1) now
        (windowsFrom start (chunkDaysFor timeframe) (endOpt.getD now.1))),
      p.2.datetime = (p.1, 0) := by
    refine mem_dictFold _ _ [] (by simp) ?_
    intro p hp
    exact (mem_windowContribs _ p hp).1
  have hvals := values_filter_of_find k v₂ hnd hdtv hfind
  have hperm : (series.filter (fun o => decide (o.datetime = (k, 0)))).Perm
      (((dictFold []
        (windowContribs vendor start (endOpt.getD now.1) now
          (windowsFrom start (chunkDaysFor timeframe) (endOpt.getD now.1)))).map
            Prod.snd).filter (fun o => decide (o.datetime = (k, 0)))) := by
    rw [hser]
    exact (sortByDatetime_perm _).filter _
  rw [hvals] at hperm
  exact List.perm_singleton.mp hperm

/-- A vendor stub for the concrete aggregation scenarios: every window call
succeeds and returns one candle dated day 100 whose reported volume is the
window's `current_end`, so overlapping windows contribute the same bucket
key with different payloads. -/
def dupVendor : Int × Int → KISResponse RawDailyItem := fun w =>
  { status_code := 200, rt_cd := "0", msg_cd := "", msg1 := ""
    output2 := [{ stck_bsop_date := some 100, stck_oprc := 1, stck_hgpr := 2
                  stck_lwpr := 0, stck_clpr := 1, acml_vol := w.2 }] }

/-- The day-100 candle as contributed by the first window `(150, 300)`. -/
def dupCandleEarly : OHLCV :=
  { timestamp := 8640000000, datetime := (100, 0), open_ := 1, high := 2
    low := 0, close := 1, volume := 300 }

/-- The day-100 candle as contributed by the second window `(0, 149)`. -/
def dupCandleLate : OHLCV :=
  { timestamp := 8640000000, datetime := (100, 0), open_ := 1, high := 2
    low := 0, close := 1, volume := 149 }

theorem C1_last_write_wins_witness :
    (fetch_ohlcv_range dupVendor "1d" (400, 0) 0 (some 300) =
        .ok [dupCandleLate] ∧
      (windowContribs dupVendor 0 ((some (300:Int)).getD (400:Int)) (400, 0)
        (windowsFrom 0 (chunkDaysFor "1d") ((some (300:Int)).getD (400:Int)))).filter
          (fun p => decide (p.1 = 100)) = [(100, dupCandleEarly), (100, dupCandleLate)]) ∧
    ([dupCandleLate] : List OHLCV).filter
      (fun o => decide (o.datetime = ((100:Int), (0:Nat)))) = [dupCandleLate] :=
  ⟨⟨by decide, by decide⟩,
    C1_last_write_wins dupVendor "1d" (400, 0) 0 (some 300) [dupCandleLate]
      100 dupCandleEarly dupCandleLate (by decide) (by decide)⟩

/-- C2: Abort-and-discard on mid-pass failure.  If, during a multi-window
`fetch_ohlcv_range` pass, some window's transport call returns a non-success
result code (`rt_cd ≠ "0"`, and not an HTTP 429, which would raise even
earlier) while every earlier window succeeded, the whole pass raises the
exception `raise_for_code` selects for the vendor code (`APIError` for
unmapped codes, else the `ERROR_MAP` class) and returns no partial series:
the already-accumulated items from earlier windows are discarded, never
returned. -/
theorem C2_abort_discard (vendor : Int × Int → KISResponse RawDailyItem)
    (timeframe : String) (now : DT) (start : Int) (endOpt : Option Int)
    (ws₁ ws₂ : List (Int × Int)) (w : Int × Int)
    (hws : windowsFrom start (chunkDaysFor timeframe) (endOpt.getD now.1) =
      ws₁ ++ w :: ws₂)
    (hpre : ∀ u ∈ ws₁, (vendor u).status_code ≠ 429 ∧ (vendor u).rt_cd = "0")
    (hfail : (vendor w).status_code ≠ 429 ∧ (vendor w).rt_cd ≠ "0") :
    fetch_ohlcv_range vendor timeframe now start endOpt =
      .error (raise_for_code (vendor w).msg_cd (vendor w).msg1) := by
  apply fetch_ohlcv_range_error
  rw [hws]
  apply runWindows_error
  · exact handle_response_of_rt_fail _ hfail.1 hfail.2
  · intro u hu
    exact ⟨vendor u, handle_response_of_rt_ok _ (hpre u hu).1 (hpre u hu).2⟩

/-- A vendor stub for the abort scenario over windows
`[(300, 450), (149, 299), (0, 148)]`: the 1st and 3rd windows succeed (the
1st contributing a candle), the 2nd returns result code `"1"`. -/
def abortVendor : Int × Int → KISResponse RawDailyItem := fun w =>
  if w = ((149 : Int), (299 : Int)) then
    { status_code := 200, rt_cd := "1", msg_cd := "", msg1 := "Unknown error"
      output2 := [] }
  else
    { status_code := 200, rt_cd := "0", msg_cd := "", msg1 := ""
      output2 := [{ stck_bsop_date := some 400, stck_oprc := 1, stck_hgpr := 1
                    stck_lwpr := 1, stck_clpr := 1, acml_vol := 5 }] }

theorem C2_abort_discard_witness :
    (windowsFrom 0 (chunkDaysFor "1d") ((some (450:Int)).getD (500:Int)) =
        [((300:Int), (450:Int))] ++ ((149:Int), (299:Int)) :: [((0:Int), (148:Int))] ∧
      (∀ u ∈ [((300:Int), (450:Int))],
        (abortVendor u).status_code ≠ 429 ∧ (abortVendor u).rt_cd = "0") ∧
      (abortVendor (149, 299)).status_code ≠ 429 ∧
        (abortVendor (149, 299)).rt_cd ≠ "0") ∧
    fetch_ohlcv_range abortVendor "1d" (500, 0) 0 (some 450) =
      .error (raise_for_code (abortVendor (149, 299)).msg_cd
        (abortVendor (149, 299)).msg1) :=
  ⟨⟨by decide, by decide, by decide⟩,
    C2_abort_discard abortVendor "1d" (500, 0) 0 (some 450)
      [(300, 450)] [(0, 148)] (149, 299) (by decide) (by decide) (by decide)⟩

/-- C3: Ascending order invariant.  Every list returned by
`fetch_ohlcv_range` is strictly ascending by datetime with no two entries
sharing a bucket key; the same holds for every list `fetch_minute_ohlcv`
returns (which, in this code revision, can only be the empty list: any item
surviving the filters hits the `OHLCV` constructor call that omits the
required `timestamp` field and raises a pydantic `ValidationError`). -/
theorem C3_ascending (vendor : Int × Int → KISResponse RawDailyItem)
    (timeframe : String) (now : DT) (start : Int) (endOpt : Option Int)
    (series : List OHLCV) (vendorM : Nat → KISResponse RawMinuteItem)
    (interval : Nat) (seriesM : List OHLCV)
    (h : fetch_ohlcv_range vendor timeframe now start endOpt = .ok series)
    (hM : fetch_minute_ohlcv vendorM interval = .ok seriesM) :
    series.Pairwise (fun a b => dtLt a.datetime b.datetime) ∧
      (series.map (fun o => o.datetime)).Nodup ∧
      seriesM.Pairwise (fun a b => dtLt a.datetime b.datetime) ∧
      (seriesM.map (fun o => o.datetime)).Nodup := by
  obtain ⟨h₁, h₂, -⟩ :=
    fetch_ohlcv_range_series_facts vendor timeframe now start endOpt series h
  have hM₂ : seriesM = [] := fetch_minute_ohlcv_ok hM
  subst hM₂
  exact ⟨h₁, h₂, by simp, by simp⟩

/-- A minute-endpoint vendor stub whose every anchor call succeeds with an
empty item list. -/
def emptyMinuteVendor : Nat → KISResponse RawMinuteItem := fun _ =>
  { status_code := 200, rt_cd := "0", msg_cd := "", msg1 := "", output2 := [] }

theorem C3_ascending_witness :
    (fetch_ohlcv_range dupVendor "1d" (400, 0) 0 (some 300) =
        .ok [dupCandleLate] ∧
      fetch_minute_ohlcv emptyMinuteVendor 1 = .ok []) ∧
    (([dupCandleLate] : List OHLCV).Pairwise
        (fun a b => dtLt a.datetime b.datetime) ∧
      (([dupCandleLate] : List OHLCV).map (fun o => o.datetime)).Nodup ∧
      ([] : List OHLCV).Pairwise (fun a b => dtLt a.datetime b.datetime) ∧
      (([] : List OHLCV).map (fun o => o.datetime)).Nodup) :=
  ⟨⟨by decide, by decide⟩,
    C3_ascending dupVendor "1d" (400, 0) 0 (some 300) [dupCandleLate]
      emptyMinuteVendor 1 [] (by decide) (by decide)⟩

/-- C4: Range coverage invariant.  For every requested range `[start, end]`,
every bucket key (`stck_bsop_date`, at midnight of its day) present in a
returned series lies within `[start, end]`; vendor items whose reported
bucket falls outside the range are excluded from the keyed accumulator and
hence from the result. -/
theorem C4_range_coverage (vendor : Int × Int → KISResponse RawDailyItem)
    (timeframe : String) (now : DT) (start : Int) (endOpt : Option Int)
    (series : List OHLCV)
    (h : fetch_ohlcv_range vendor timeframe now start endOpt = .ok series) :
    (∀ o ∈ series, start ≤ o.datetime.1 ∧ o.datetime.1 ≤ endOpt.getD now.1 ∧
        o.datetime.2 = 0) ∧
      ∀ acc, runWindows vendor start (endOpt.getD now.1) now
          (windowsFrom start (chunkDaysFor timeframe) (endOpt.getD now.1)) [] =
            .ok acc →
        ∀ p ∈ acc, start ≤ p.1 ∧ p.1 ≤ endOpt.getD now.1 := by
  obtain ⟨-, -, h₃⟩ :=
    fetch_ohlcv_range_series_facts vendor timeframe now start endOpt series h
  refine ⟨h₃, ?_⟩
  intro acc hacc p hp
  obtain ⟨heq, -⟩ := runWindows_ok vendor start (endOpt.getD now.1) now _ _ _ hacc
  subst heq
  have := mem_dictFold
    (fun p => p.2.datetime = (p.1, 0) ∧ start ≤ p.1 ∧ p.1 ≤ endOpt.getD now.1)
    _ [] (by simp) (fun q hq => mem_windowContribs _ q hq) p hp
  exact ⟨this.2.1, this.2.2⟩

theorem C4_range_coverage_witness :
    fetch_ohlcv_range dupVendor "1d" (400, 0) 0 (some 300) = .ok [dupCandleLate] ∧
    ((∀ o ∈ ([dupCandleLate] : List OHLCV),
        (0:Int) ≤ o.datetime.1 ∧ o.datetime.1 ≤ (some (300:Int)).getD ((400, 0) : DT).1 ∧
        o.datetime.2 = 0) ∧
      ∀ acc, runWindows dupVendor 0 ((some (300:Int)).getD ((400, 0) : DT).1) (400, 0)
          (windowsFrom 0 (chunkDaysFor "1d") ((some (300:Int)).getD ((400, 0) : DT).1)) [] =
            .ok acc →
        ∀ p ∈ acc, (0:Int) ≤ p.1 ∧ p.1 ≤ (some (300:Int)).getD ((400, 0) : DT).1) :=
  ⟨by decide,
    C4_range_coverage dupVendor "1d" (400, 0) 0 (some 300) [dupCandleLate] (by decide)⟩

/-- C5: Window partitioning and walk order.  A daily `fetch_ohlcv_range`
request whose range spans 300 days (`end = start + 300`) with the 150-day
window size partitions into exactly the two windows
`[(start + 150, start + 300), (start, start + 149)]`, walked newest-first
(the first call's window ends at the range end, the second covers the older
remainder down to the range start); on a successful pass exactly these 2
windowed transport calls are issued and the merged result is still strictly
ascending. -/
theorem C5_window_partition (s : Int)
    (vendor : Int × Int → KISResponse RawDailyItem) (now : DT)
    (series : List OHLCV)
    (h : fetch_ohlcv_range vendor "1d" now s (some (s + 300)) = .ok series) :
    windowsFrom s (chunkDaysFor "1d") (s + 300) =
        [(s + 150, s + 300), (s, s + 149)] ∧
      issuedCalls vendor (windowsFrom s (chunkDaysFor "1d") (s + 300)) =
        [(s + 150, s + 300), (s, s + 149)] ∧
      series.Pairwise (fun a b => dtLt a.datetime b.datetime) := by
  have hchunk : chunkDaysFor "1d" = 150 := rfl
  have hw : windowsFrom s (chunkDaysFor "1d") (s + 300) =
      [(s + 150, s + 300), (s, s + 149)] := by
    rw [hchunk]
    rw [windowsFrom_eq, if_pos (by omega)]
    have hm₁ : max s (s + 300 - ((150 : Nat) : Int)) = s + 150 := by
      rw [max_eq_right (by push_cast; omega)]
      push_cast
      ring
    rw [hm₁]
    have he₁ : s + 150 - 1 = s + 149 := by ring
    rw [he₁]
    rw [windowsFrom_eq, if_pos (by omega)]
    have hm₂ : max s (s + 149 - ((150 : Nat) : Int)) = s := by
      rw [max_eq_left (by push_cast; omega)]
    rw [hm₂]
    rw [windowsFrom_eq, if_neg (by omega)]
  refine ⟨hw, ?_, ?_⟩
  · obtain ⟨-, hallok⟩ :=
      fetch_ohlcv_range_ok vendor "1d" now s (some (s + 300)) series h
    have hend : ((some (s + 300) : Option Int)).getD now.1 = s + 300 := rfl
    rw [hend] at hallok
    rw [issuedCalls_of_all_ok vendor _ hallok]
    exact hw
  · exact (fetch_ohlcv_range_series_facts vendor "1d" now s (some (s + 300))
      series h).1

theorem C5_window_partition_witness :
    fetch_ohlcv_range dupVendor "1d" (400, 0) 0 (some ((0:Int) + 300)) =
        .ok [dupCandleLate] ∧
    (windowsFrom 0 (chunkDaysFor "1d") ((0:Int) + 300) =
        [((0:Int) + 150, (0:Int) + 300), ((0:Int), (0:Int) + 149)] ∧
      issuedCalls dupVendor (windowsFrom 0 (chunkDaysFor "1d") ((0:Int) + 300)) =
        [((0:Int) + 150, (0:Int) + 300), ((0:Int), (0:Int) + 149)] ∧
      ([dupCandleLate] : List OHLCV).Pairwise
        (fun a b => dtLt a.datetime b.datetime)) :=
  ⟨by decide,
    C5_window_partition 0 dupVendor (400, 0) [dupCandleLate] (by decide)⟩

/-- C6 counterexample: the guarantee "the headers returned contain a
Credential valid for at least the safety margin at the time of return,
unless refresh fails" is violated when the issuance response grants
`expires_in = 0`: at `now = 0` the refresh succeeds and `get_headers`
returns headers, yet the stored expiry is `now + 0 = 0`, so the credential
is valid for `0 < SAFETY_MARGIN` seconds — indeed it is already expired at
the moment of return. -/
theorem C6_counterexample :
    (get_headers "k" "s" 0
        { http_error := false, access_token := some "tok", expires_in := some 0
          msg1 := none, msg_cd := none }
        { token := none, expires := none, store := none }).1 =
      .ok (mkHeaders "k" "s"
        { token := some "tok", expires := some 0
          store := some (some "tok", some 0) }) ∧
    (get_headers "k" "s" 0
        { http_error := false, access_token := some "tok", expires_in := some 0
          msg1 := none, msg_cd := none }
        { token := none, expires := none, store := none }).2.1.expires = some 0 ∧
    ¬ SAFETY_MARGIN ≤ (0 : Int) - 0 ∧
    _is_expired 0
      { token := some "tok", expires := some 0
        store := some (some "tok", some 0) } = true := by
  decide

/-- C6 (amended): `get_headers` triggers a refresh network call if and only
if the held credential is absent or within the safety margin of expiry
(`_is_expired`); with a valid held credential it returns the cached headers,
performs no network call, and the credential is valid for at least the
safety margin; a refresh that fails raises `AuthenticationError`; and —
provided the refresh grants a nonempty token with a lifetime strictly
greater than the safety margin (as the vendor's real 86400-second grant
does; the claim's unqualified guarantee fails for pathological grants, see
the counterexample) — a successful refresh returns headers for a credential
valid for at least the safety margin, and any repeated `get_headers` call at
the same instant returns the same headers with zero additional refresh
calls. -/
theorem C6_get_headers_contract (appKey appSecret : String) (now : Int)
    (resp : TokenResponse) (st : AuthState) :
    ((get_headers appKey appSecret now resp st).2.2 =
        if _is_expired now st then 1 else 0) ∧
    (_is_expired now st = false →
      get_headers appKey appSecret now resp st =
          (.ok (mkHeaders appKey appSecret st), st, 0) ∧
        ∃ exp, st.expires = some exp ∧ SAFETY_MARGIN ≤ exp - now) ∧
    (_is_expired now st = true → resp.http_error = false →
      ∀ tok, resp.access_token = some tok → tok ≠ "" →
      ∀ ein, resp.expires_in = some ein → SAFETY_MARGIN < ein →
      ∃ stN, get_headers appKey appSecret now resp st =
            (.ok (mkHeaders appKey appSecret stN), stN, 1) ∧
          stN.token = some tok ∧ stN.expires = some (now + ein) ∧
          SAFETY_MARGIN ≤ (now + ein) - now ∧
          ∀ resp₂, get_headers appKey appSecret now resp₂ stN =
            (.ok (mkHeaders appKey appSecret stN), stN, 0)) ∧
    (_is_expired now st = true →
      (resp.http_error = true ∨ resp.access_token = none) →
      ∃ m c, (get_headers appKey appSecret now resp st).1 =
        .error (.authenticationError m c)) := by
  refine ⟨?_, ?_, ?_, ?_⟩
  · unfold get_headers
    by_cases hexp : _is_expired now st
    · simp only [hexp, if_true]
      cases _refresh now resp <;> rfl
    · simp [hexp]
  · intro hexp
    unfold get_headers
    rw [hexp]
    refine ⟨by rfl, ?_⟩
    unfold _is_expired at hexp
    cases htok : st.token with
    | none => rw [htok] at hexp; simp at hexp
    | some tok =>
      cases hexpires : st.expires with
      | none => rw [htok, hexpires] at hexp; simp at hexp
      | some exp =>
        rw [htok, hexpires] at hexp
        have hexp₂ : (if tok = "" then true
            else decide (now ≥ exp - SAFETY_MARGIN)) = false := hexp
        refine ⟨exp, rfl, ?_⟩
        by_cases ht : tok = ""
        · rw [if_pos ht] at hexp₂; simp at hexp₂
        · rw [if_neg ht] at hexp₂
          simp only [decide_eq_false_iff_not, not_le] at hexp₂
          unfold SAFETY_MARGIN at *
          omega
  · intro hexp hhttp tok htok hne ein hein hlt
    have hrefresh : _refresh now resp =
        .ok { token := some tok, expires := some (now + ein)
              store := some (some tok, some (now + ein)) } := by
      unfold _refresh
      rw [hhttp, htok, hein]
      rfl
    refine ⟨{ token := some tok, expires := some (now + ein)
              store := some (some tok, some (now + ein)) }, ?_, rfl, rfl, ?_, ?_⟩
    · unfold get_headers
      rw [hexp, hrefresh]
      simp
    · omega
    · intro resp₂
      have hfresh : _is_expired now
          { token := some tok, expires := some (now + ein)
            store := some (some tok, some (now + ein)) } = false := by
        unfold _is_expired
        show (if tok = "" then true
          else decide (now ≥ now + ein - SAFETY_MARGIN)) = false
        rw [if_neg hne]
        simp only [decide_eq_false_iff_not, not_le]
        omega
      unfold get_headers
      rw [hfresh]
      simp
  · intro hexp hfail
    have hrefresh : ∃ m c, _refresh now resp = .error (.authenticationError m c) := by
      unfold _refresh
      rcases hfail with hfail | hfail
      · rw [hfail]
        exact ⟨_, _, rfl⟩
      · cases hhttp : resp.http_error with
        | true => simp only [if_true]; exact ⟨_, _, rfl⟩
        | false =>
          simp only [Bool.false_eq_true, if_false]
          rw [hfail]
          exact ⟨_, _, rfl⟩
    obtain ⟨m, c, hr⟩ := hrefresh
    refine ⟨m, c, ?_⟩
    unfold get_headers
    rw [hexp, hr]
    rfl

theorem C6_get_headers_contract_witness :
    _is_expired 0 { token := none, expires := none, store := none } = true ∧
    (((get_headers "k" "s" 0 goodTokenResp
        { token := none, expires := none, store := none }).2.2 =
        if _is_expired 0 { token := none, expires := none, store := none }
        then 1 else 0) ∧
      (_is_expired 0 { token := none, expires := none, store := none } = false →
        get_headers "k" "s" 0 goodTokenResp
            { token := none, expires := none, store := none } =
            (.ok (mkHeaders "k" "s" { token := none, expires := none, store := none }),
              { token := none, expires := none, store := none }, 0) ∧
          ∃ exp, ({ token := none, expires := none, store := none } : AuthState).expires =
            some exp ∧ SAFETY_MARGIN ≤ exp - 0) ∧
      (_is_expired 0 { token := none, expires := none, store := none } = true →
        goodTokenResp.http_error = false →
        ∀ tok, goodTokenResp.access_token = some tok → tok ≠ "" →
        ∀ ein, goodTokenResp.expires_in = some ein → SAFETY_MARGIN < ein →
        ∃ stN, get_headers "k" "s" 0 goodTokenResp
              { token := none, expires := none, store := none } =
              (.ok (mkHeaders "k" "s" stN), stN, 1) ∧
            stN.token = some tok ∧ stN.expires = some (0 + ein) ∧
            SAFETY_MARGIN ≤ (0 + ein) - 0 ∧
            ∀ resp₂, get_headers "k" "s" 0 resp₂ stN =
              (.ok (mkHeaders "k" "s" stN), stN, 0)) ∧
      (_is_expired 0 { token := none, expires := none, store := none } = true →
        (goodTokenResp.http_error = true ∨ goodTokenResp.access_token = none) →
        ∃ m c, (get_headers "k" "s" 0 goodTokenResp
            { token := none, expires := none, store := none }).1 =
          .error (.authenticationError m c))) :=
  ⟨by decide,
    C6_get_headers_contract "k" "s" 0 goodTokenResp
      { token := none, expires := none, store := none }⟩

/-- C7 counterexample: two concurrent `get_headers()` callers that both
observe the absent/expired credential before either refresh completes —
the cooperative schedule checks task 0, checks task 1, then completes both
refreshes — issue 2 refresh network calls, not the single call the claim
asserts.  `AsyncAuthManager.get_headers` holds no lock and applies no
single-flight discipline. -/
theorem C7_counterexample :
    (concRun 0 goodTokenResp (concInit 2) [0, 1, 0, 1]).refreshCalls = 2 ∧
    ¬ (concRun 0 goodTokenResp (concInit 2) [0, 1, 0, 1]).refreshCalls = 1 := by
  decide

/-- C7 (amended): the async auth manager does not serialize concurrent
refreshes.  For every `n`, the schedule in which all `n` pending
`get_headers()` callers run their expiry check (and issue their token POST)
before any refresh completes produces exactly `n` refresh network calls —
one per caller — rather than 1; only schedules whose checks each run after
the previous caller's refresh completed (e.g. the fully serialized
`[0, 0, 1, 1]` schedule for two callers) coalesce to a single call. -/
theorem C7_no_single_flight (n : Nat) :
    (concRun 0 goodTokenResp (concInit n) (List.range n)).refreshCalls = n ∧
    (concRun 0 goodTokenResp (concInit 2) [0, 0, 1, 1]).refreshCalls = 1 := by
  constructor
  · have hexp : _is_expired 0 (concInit n).auth = true := rfl
    have hpending : ∀ j, j < n → (concInit n).phases[j]? = some .notStarted := by
      intro j hj
      show (List.replicate n TaskPhase.notStarted)[j]? = some .notStarted
      rw [List.getElem?_replicate_of_lt hj]
    obtain ⟨-, hcalls, -⟩ :=
      concRun_checks 0 goodTokenResp n (concInit n) hexp hpending
    rw [hcalls]
    show 0 + n = n
    omega
  · decide

/-- C8: Refresh atomicity on failure.  Whenever `_refresh` fails — an
HTTP-level error from the token-issuance call, or a response lacking
`access_token` — it raises `AuthenticationError`, and a `get_headers` call
hitting that failure leaves the previously held token and expiry unchanged
and persists nothing new to the token store (the returned state, store
included, is exactly the prior state). -/
theorem C8_refresh_atomic (appKey appSecret : String) (now : Int)
    (resp : TokenResponse) (st : AuthState)
    (hfail : resp.http_error = true ∨ resp.access_token = none) :
    (∃ m c, _refresh now resp = .error (.authenticationError m c)) ∧
    (get_headers appKey appSecret now resp st).2.1 = st ∧
    (get_headers appKey appSecret now resp st).2.1.store = st.store ∧
    (_is_expired now st = true →
      ∃ m c, (get_headers appKey appSecret now resp st).1 =
        .error (.authenticationError m c)) := by
  have hrefresh : ∃ m c, _refresh now resp = .error (.authenticationError m c) := by
    unfold _refresh
    rcases hfail with hfail | hfail
    · rw [hfail]
      exact ⟨_, _, rfl⟩
    · cases hhttp : resp.http_error with
      | true => simp only [if_true]; exact ⟨_, _, rfl⟩
      | false =>
        simp only [Bool.false_eq_true, if_false]
        rw [hfail]
        exact ⟨_, _, rfl⟩
  obtain ⟨m, c, hr⟩ := hrefresh
  have hstate : (get_headers appKey appSecret now resp st).2.1 = st := by
    unfold get_headers
    by_cases hexp : _is_expired now st
    · simp only [hexp, if_true, hr]
    · simp [hexp]
  refine ⟨⟨m, c, hr⟩, hstate, by rw [hstate], ?_⟩
  intro hexp
  refine ⟨m, c, ?_⟩
  unfold get_headers
  rw [hexp, hr]
  rfl

/-- A token-issuance response that fails at the HTTP level. -/
def failTokenResp : TokenResponse :=
  { http_error := true, access_token := none, expires_in := none
    msg1 := none, msg_cd := none }

/-- A previously held (now long-expired) credential, also persisted in the
token store. -/
def oldAuthState : AuthState :=
  { token := some "old", expires := some 1000
    store := some (some "old", some 1000) }

theorem C8_refresh_atomic_witness :
    (failTokenResp.http_error = true ∨ failTokenResp.access_token = none) ∧
    ((∃ m c, _refresh 2000 failTokenResp = .error (.authenticationError m c)) ∧
      (get_headers "k" "s" 2000 failTokenResp oldAuthState).2.1 = oldAuthState ∧
      (get_headers "k" "s" 2000 failTokenResp oldAuthState).2.1.store =
        oldAuthState.store ∧
      (_is_expired 2000 oldAuthState = true →
        ∃ m c, (get_headers "k" "s" 2000 failTokenResp oldAuthState).1 =
          .error (.authenticationError m c))) :=
  ⟨Or.inl rfl, C8_refresh_atomic "k" "s" 2000 failTokenResp oldAuthState (Or.inl rfl)⟩

/-- Field `i` of a frame's caret-separated payload (the payload is the 4th
pipe-separated envelope part). -/
def tickerPayloadField (m : String) (i : Nat) : String :=
  (splitOnChar '^' ((splitOnChar '|' m).getD 3 "")).getD i ""

/-- On a fall indicator in payload field 3, a successfully parsed frame
carries `change`/`change_percent` forced to minus the absolute value of the
raw parsed fields. -/
theorem parseTickerFields_sign (data_parts : List String) (symbol : String)
    (now : Int) (t : Ticker)
    (h : parseTickerFields data_parts symbol now = some t)
    (hs : data_parts.getD 3 "" = "4" ∨ data_parts.getD 3 "" = "5") :
    t.change = -|(pyFloat (data_parts.getD 4 "")).getD 0| ∧ t.change ≤ 0 ∧
      t.change_percent = -|(pyFloat (data_parts.getD 5 "")).getD 0| ∧
      t.change_percent ≤ 0 := by
  unfold parseTickerFields at h
  cases h2 : pyFloat (data_parts.getD 2 "") with
  | none => rw [h2] at h; simp at h
  | some last =>
  rw [h2] at h
  simp only [Option.some_bind] at h
  cases h4 : pyFloat (data_parts.getD 4 "") with
  | none => rw [h4] at h; simp at h
  | some chg =>
  rw [h4] at h
  simp only [Option.some_bind] at h
  cases h5 : pyFloat (data_parts.getD 5 "") with
  | none => rw [h5] at h; simp at h
  | some pct =>
  rw [h5] at h
  simp only [Option.some_bind] at h
  cases h7 : pyFloat (data_parts.getD 7 "") with
  | none => rw [h7] at h; simp at h
  | some o =>
  rw [h7] at h
  simp only [Option.some_bind] at h
  cases h8 : pyFloat (data_parts.getD 8 "") with
  | none => rw [h8] at h; simp at h
  | some hi =>
  rw [h8] at h
  simp only [Option.some_bind] at h
  cases h9 : pyFloat (data_parts.getD 9 "") with
  | none => rw [h9] at h; simp at h
  | some lo =>
  rw [h9] at h
  simp only [Option.some_bind] at h
  cases h13 : pyInt (data_parts.getD 13 "") with
  | none => rw [h13] at h; simp at h
  | some vol =>
  rw [h13] at h
  simp only [Option.map_some'] at h
  have hsign : (data_parts.getD 3 "" = "4" ∨ data_parts.getD 3 "" = "5") = True :=
    eq_true hs
  injection h with h
  subst h
  simp only [hsign, if_true]
  refine ⟨by simp [h4], neg_nonpos.mpr (abs_nonneg _),
    by simp [h5], neg_nonpos.mpr (abs_nonneg _)⟩

/-- C9: Sign convention.  For both decoded ticker paths — the REST mapping
`Ticker.from_kis` and the streaming frame parser `_parse_ticker_message` —
a fall side-indicator code (`"4"` or `"5"`) forces the resulting `change`
and `change_percent` to `-abs(raw value)`, hence nonpositive, even when the
raw parsed field value is positive. -/
theorem C9_sign_convention (data : TickerResponse) (output : TickerOutput)
    (symbol : String) (nowA : Int) (msg symbol₂ : String) (now₂ : Int)
    (t : Ticker)
    (hout : data.output = some output)
    (hsign : output.prdy_vrss_sign.getD "3" = "4" ∨
      output.prdy_vrss_sign.getD "3" = "5")
    (hparse : _parse_ticker_message msg symbol₂ now₂ = some t)
    (hfield : tickerPayloadField msg 3 = "4" ∨ tickerPayloadField msg 3 = "5") :
    ((Ticker.from_kis data symbol nowA).change =
        -|output.prdy_vrss.getD 0| ∧
      (Ticker.from_kis data symbol nowA).change ≤ 0 ∧
      (Ticker.from_kis data symbol nowA).change_percent =
        -|output.prdy_ctrt.getD 0| ∧
      (Ticker.from_kis data symbol nowA).change_percent ≤ 0) ∧
    (t.change = -|(pyFloat (tickerPayloadField msg 4)).getD 0| ∧ t.change ≤ 0 ∧
      t.change_percent = -|(pyFloat (tickerPayloadField msg 5)).getD 0| ∧
      t.change_percent ≤ 0) := by
  constructor
  · have hsign₂ : (output.prdy_vrss_sign.getD "3" = "4" ∨
        output.prdy_vrss_sign.getD "3" = "5") = True := eq_true hsign
    unfold Ticker.from_kis
    rw [hout]
    refine ⟨?_, ?_, ?_, ?_⟩ <;>
      simp only [Option.getD_some, hsign₂, if_true] <;>
      first
        | rfl
        | exact neg_nonpos.mpr (abs_nonneg _)
  · unfold _parse_ticker_message at hparse
    by_cases hc : isControlFrame msg
    · rw [if_pos hc] at hparse; exact absurd hparse (by simp)
    · rw [if_neg hc] at hparse
      by_cases hl : (splitOnChar '|' msg).length < 4
      · rw [if_pos hl] at hparse; exact absurd hparse (by simp)
      · rw [if_neg hl] at hparse
        by_cases hl₂ : (splitOnChar '^'
            ((splitOnChar '|' msg).getD 3 "")).length < 20
        · rw [if_pos hl₂] at hparse; exact absurd hparse (by simp)
        · rw [if_neg hl₂] at hparse
          exact parseTickerFields_sign _ _ _ _ hparse hfield

/-- A REST price `output` object for a falling stock whose raw `prdy_vrss`
and `prdy_ctrt` strings carry positive magnitudes. -/
def fallOutput : TickerOutput :=
  { stck_prpr := some 71000, prdy_vrss := some 500, prdy_vrss_sign := some "4"
    prdy_ctrt := some 3, hts_kor_isnm := some "삼성전자", prdt_name := none
    stck_shrn_iscd := none, stck_oprc := some 70000, stck_hgpr := some 71500
    stck_lwpr := some 70800, acml_vol := some 15000000 }

/-- A well-formed streaming frame for a falling stock: 20 caret-separated
payload fields, side indicator `"4"`, positive raw change `500` and change
percent `3`. -/
def fallFrame : String :=
  "0|H0STCNT0|001|005930^093000^71000^4^500^3^x^70000^71500^70800^x^x^x^1234^a^a^a^a^a^a"

/-- The `Ticker` the streaming parser produces from `fallFrame`. -/
def fallTick : Ticker :=
  { symbol := "005930", name := none, timestamp := 0, datetime := 0
    open_ := 70000, high := 71500, low := 70800, close := 71000, last := 71000
    volume := 1234, change := -500, change_percent := -3, info := none }

theorem C9_sign_convention_witness :
    (({ output := some fallOutput } : TickerResponse).output = some fallOutput ∧
      (fallOutput.prdy_vrss_sign.getD "3" = "4" ∨
        fallOutput.prdy_vrss_sign.getD "3" = "5") ∧
      _parse_ticker_message fallFrame "005930" 0 = some fallTick ∧
      (tickerPayloadField fallFrame 3 = "4" ∨
        tickerPayloadField fallFrame 3 = "5")) ∧
    (((Ticker.from_kis { output := some fallOutput } "005930" 0).change =
        -|fallOutput.prdy_vrss.getD 0| ∧
      (Ticker.from_kis { output := some fallOutput } "005930" 0).change ≤ 0 ∧
      (Ticker.from_kis { output := some fallOutput } "005930" 0).change_percent =
        -|fallOutput.prdy_ctrt.getD 0| ∧
      (Ticker.from_kis { output := some fallOutput } "005930" 0).change_percent ≤ 0) ∧
    (fallTick.change = -|(pyFloat (tickerPayloadField fallFrame 4)).getD 0| ∧
      fallTick.change ≤ 0 ∧
      fallTick.change_percent =
        -|(pyFloat (tickerPayloadField fallFrame 5)).getD 0| ∧
      fallTick.change_percent ≤ 0)) :=
  ⟨⟨rfl, by decide, by decide, by decide⟩,
    C9_sign_convention { output := some fallOutput } fallOutput "005930" 0
      fallFrame "005930" 0 fallTick rfl (by decide) (by decide) (by decide)⟩

/-- The malformed-frame conditions of the streaming ticker decoder: an empty
or JSON-shaped control frame, fewer than 4 pipe-separated envelope parts,
fewer than the 20-field minimum caret-separated payload, or any of the
numerically parsed fields (2, 4, 5, 7, 8, 9 as floats, 13 as int) failing to
parse. -/
def MalformedTickerFrame (m : String) : Prop :=
  isControlFrame m = true ∨
  (splitOnChar '|' m).length < 4 ∨
  (splitOnChar '^' ((splitOnChar '|' m).getD 3 "")).length < 20 ∨
  pyFloat (tickerPayloadField m 2) = none ∨
  pyFloat (tickerPayloadField m 4) = none ∨
  pyFloat (tickerPayloadField m 5) = none ∨
  pyFloat (tickerPayloadField m 7) = none ∨
  pyFloat (tickerPayloadField m 8) = none ∨
  pyFloat (tickerPayloadField m 9) = none ∨
  pyInt (tickerPayloadField m 13) = none

/-- A failed numeric conversion anywhere in the payload yields `None` from
the field parser. -/
theorem parseTickerFields_none (dp : List String) (symbol : String) (now : Int)
    (h : pyFloat (dp.getD 2 "") = none ∨ pyFloat (dp.getD 4 "") = none ∨
      pyFloat (dp.getD 5 "") = none ∨ pyFloat (dp.getD 7 "") = none ∨
      pyFloat (dp.getD 8 "") = none ∨ pyFloat (dp.getD 9 "") = none ∨
      pyInt (dp.getD 13 "") = none) :
    parseTickerFields dp symbol now = none := by
  unfold parseTickerFields
  cases h2 : pyFloat (dp.getD 2 "") with
  | none => rfl
  | some v2 =>
  simp only [Option.some_bind]
  cases h4 : pyFloat (dp.getD 4 "") with
  | none => rfl
  | some v4 =>
  simp only [Option.some_bind]
  cases h5 : pyFloat (dp.getD 5 "") with
  | none => rfl
  | some v5 =>
  simp only [Option.some_bind]
  cases h7 : pyFloat (dp.getD 7 "") with
  | none => rfl
  | some v7 =>
  simp only [Option.some_bind]
  cases h8 : pyFloat (dp.getD 8 "") with
  | none => rfl
  | some v8 =>
  simp only [Option.some_bind]
  cases h9 : pyFloat (dp.getD 9 "") with
  | none => rfl
  | some v9 =>
  simp only [Option.some_bind]
  cases h13 : pyInt (dp.getD 13 "") with
  | none => rfl
  | some v13 =>
  exfalso
  rcases h with h | h | h | h | h | h | h
  · rw [h2] at h; exact absurd h (by simp)
  · rw [h4] at h; exact absurd h (by simp)
  · rw [h5] at h; exact absurd h (by simp)
  · rw [h7] at h; exact absurd h (by simp)
  · rw [h8] at h; exact absurd h (by simp)
  · rw [h9] at h; exact absurd h (by simp)
  · rw [h13] at h; exact absurd h (by simp)

instance (m : String) : Decidable (MalformedTickerFrame m) := by
  unfold MalformedTickerFrame
  infer_instance

/-- C10: Decode resilience of the streaming feed.  A malformed inbound frame
— a JSON-shaped control frame, fewer than 4 pipe-separated envelope parts,
fewer than the 20-field payload minimum, or any numerically parsed field
failing to parse — yields no `Tick`; the sequence `watch_ticker` produces is
exactly the concatenation of what it produces around the malformed frame
(nothing is raised to the consumer, nothing else is dropped), and the next
well-formed frame still yields its `Tick`. -/
theorem C10_decode_resilience (m symbol : String) (now : Int)
    (h : MalformedTickerFrame m) :
    _parse_ticker_message m symbol now = none ∧
    (∀ pre post, watch_ticker symbol now (pre ++ m :: post) =
      watch_ticker symbol now pre ++ watch_ticker symbol now post) ∧
    (∀ g t, _parse_ticker_message g symbol now = some t →
      watch_ticker symbol now [m, g] = [t]) := by
  have hnone : _parse_ticker_message m symbol now = none := by
    unfold _parse_ticker_message
    by_cases hc : isControlFrame m
    · rw [if_pos hc]
    · rw [if_neg hc]
      by_cases hl : (splitOnChar '|' m).length < 4
      · rw [if_pos hl]
      · rw [if_neg hl]
        by_cases hl₂ : (splitOnChar '^' ((splitOnChar '|' m).getD 3 "")).length < 20
        · rw [if_pos hl₂]
        · rw [if_neg hl₂]
          apply parseTickerFields_none
          rcases h with h | h | hrest
          · exact absurd h hc
          · exact absurd h hl
          rcases hrest with h | hrest
          · exact absurd h hl₂
          simpa only [tickerPayloadField] using hrest
  refine ⟨hnone, ?_, ?_⟩
  · intro pre post
    simp [watch_ticker, List.filterMap_append, List.filterMap_cons, hnone]
  · intro g t hg
    simp [watch_ticker, List.filterMap_cons, hnone, hg]

theorem C10_decode_resilience_witness :
    MalformedTickerFrame "a|b" ∧
    (_parse_ticker_message "a|b" "005930" 0 = none ∧
      (∀ pre post, watch_ticker "005930" 0 (pre ++ "a|b" :: post) =
        watch_ticker "005930" 0 pre ++ watch_ticker "005930" 0 post) ∧
      (∀ g t, _parse_ticker_message g "005930" 0 = some t →
        watch_ticker "005930" 0 ["a|b", g] = [t])) :=
  ⟨by decide, C10_decode_resilience "a|b" "005930" 0 (by decide)⟩
